import Mathlib

/-!
# A verification development for the `curly` templating engine

This file gives a shallow embedding in Lean 4 of the core of the `curly`
text-templating engine (modules `curly/utils.py`, `curly/lexer.py`,
`curly/parser.py`, `curly/template.py`, `curly/env.py`,
`curly/__init__.py`) and proves properties of the embedded code.

Modelling conventions:
* Python values reachable from a template context are modelled by the
  JSON-like type `Value` (mappings carry `String` keys and remember
  insertion order, as CPython dicts do).
* Fallible Python code (code that can raise) is modelled with
  `Except Err`.
* Python generators (`emit`) are modelled as functions producing the
  full list of emitted chunks; a raised exception aborts the whole
  computation, matching what `"".join(node.emit(ctx))` observes.
* Regular-expression matching is modelled by a small backtracking
  engine (`matchRE`) with Python `re` semantics: alternatives are tried
  left to right and repetition is greedy, the first successful path
  wins.
-/

/-- A Python value reachable from a template rendering context:
`None`, booleans, integers, strings, lists and (string-keyed,
insertion-ordered) dicts; plus `attrObj`, the model's name for a
builtin attribute object that `getattr` can hand back during
variable resolution (see `pyGetattr`). -/
inductive Value where
  | none
  | bool (b : Bool)
  | int (n : Int)
  | str (s : String)
  | list (xs : List Value)
  | dict (entries : List (String × Value))
  /-- An attribute that `getattr` finds on a builtin value but whose
  own structure the value model does not represent further — a bound
  method (`getattr` on a dict for `"items"`), a method wrapper, a
  type object (`"__class__"`), or a builtin docstring (`"__doc__"`)
  — tagged with the type name and the attribute name.  Every such
  object is truthy, is not subscriptable by a string key, and the
  bound methods / wrappers / type objects among them are not
  iterable. -/
  | attrObj (tyName attrName : String)

/-- A rendering context: a Python dict from strings to values,
in insertion order (`dict context` as a `Value`). -/
abbrev Context := List (String × Value)

/-- First-occurrence lookup in an insertion-ordered dict. -/
def ctxGet (ctx : Context) (k : String) : Option Value :=
  match ctx with
  | [] => Option.none
  | (k', v) :: rest => if k' = k then some v else ctxGet rest k

/-- CPython dict item assignment `d[k] = v`: overwrite the existing
slot in place (keeping its position) or append a new one. -/
def ctxSet (ctx : Context) (k : String) (v : Value) : Context :=
  match ctx with
  | [] => [(k, v)]
  | (k', v') :: rest =>
      if k' = k then (k', v) :: rest else (k', v') :: ctxSet rest k v

/-- Python truthiness (`bool(x)`) on modelled values: `False`, `None`,
zero, empty string, empty list and empty dict are falsy.  Every
attribute object the model leaves unstructured is truthy: bound
methods, method wrappers and type objects always are, and the
docstrings classified as `attrObj` are the non-empty builtin ones
(the `None`-valued attributes `None.__doc__`, `list.__hash__` and
`dict.__hash__` are returned by `pyGetattr` as the exact value
`Value.none` instead). -/
def truthy : Value → Bool
  | .none => false
  | .bool b => b
  | .int n => n != 0
  | .str s => !s.isEmpty
  | .list xs => !xs.isEmpty
  | .dict m => !m.isEmpty
  | .attrObj _ _ => true

/-- CPython `repr` of a string for the common case: single-quote
delimited unless the text contains `'` and no `"`; backslashes, the
delimiter, newlines, tabs and carriage returns are escaped.  (Other
control characters do not occur in the properties proved here.) -/
def pyReprStr (s : String) : String :=
  let chars := s.toList
  let useDouble := chars.contains '\'' && !chars.contains '"'
  let q : Char := if useDouble then '"' else '\''
  let body := chars.flatMap fun c =>
    if c = '\\' then ['\\', '\\']
    else if c = q then ['\\', q]
    else if c = '\n' then ['\\', 'n']
    else if c = '\r' then ['\\', 'r']
    else if c = '\t' then ['\\', 't']
    else [c]
  String.mk (q :: body ++ [q])

mutual

/-- CPython `repr` on modelled values. -/
def pyRepr : Value → String
  | .none => "None"
  | .bool true => "True"
  | .bool false => "False"
  | .int n => toString n
  | .str s => pyReprStr s
  | .list xs => "[" ++ String.intercalate ", " (pyReprValues xs) ++ "]"
  | .dict m =>
      "\x7b" ++ String.intercalate ", " (pyReprEntries m) ++ "\x7d"
  -- CPython's repr of a bound method or wrapper embeds the object's
  -- memory address (and a docstring's repr is its version-dependent
  -- text), which no deterministic model can reproduce; the model uses
  -- a fixed placeholder, and no theorem in this file depends on the
  -- rendered text of an attribute object.
  | .attrObj t a => "<attribute " ++ a ++ " of " ++ t ++ " objects>"

/-- The `repr` of every element of a list of values. -/
def pyReprValues : List Value → List String
  | [] => []
  | v :: rest => pyRepr v :: pyReprValues rest

/-- The `repr` of every `key: value` entry of a dict. -/
def pyReprEntries : List (String × Value) → List String
  | [] => []
  | (k, v) :: rest => (pyReprStr k ++ ": " ++ pyRepr v) :: pyReprEntries rest

end

/-- CPython `str` on modelled values (containers fall back to `repr`,
as `str(list)`/`str(dict)` do). -/
def pyStr : Value → String
  | .none => "None"
  | .bool true => "True"
  | .bool false => "False"
  | .int n => toString n
  | .str s => s
  | .list xs => pyRepr (.list xs)
  | .dict m => pyRepr (.dict m)
  | .attrObj t a => pyRepr (.attrObj t a)

/-- The errors the embedded engine can signal, one constructor per
`raise` site reachable in the embedded code. -/
inductive Err where
  /-- The `shlex`: `ValueError("No closing quotation")`. -/
  | noClosingQuotation
  /-- The `shlex`: `ValueError("No escaped character")`. -/
  | noEscapedChar
  /-- The `Token.__init__`: raw string does not re-match the pattern. -/
  | tokenPatternMismatch
  /-- The `CurlyParserUnknownStartBlockError`. -/
  | unknownStartBlock (function : String)
  /-- The `CurlyParserUnknownEndBlockError`. -/
  | unknownEndBlock (function : String)
  /-- The `CurlyParserNoUnfinishedNodeError`. -/
  | noUnfinishedNode
  /-- The `CurlyParserUnexpectedUnfinishedNodeError`. -/
  | unexpectedUnfinishedNode
  /-- The `parse_end_if_token`: `ValueError` "has multiple elses". -/
  | multipleElses
  /-- The `parse_end_if_token`: unpacking an empty `ConditionalNode`. -/
  | unpackError
  /-- The `CurlyParserFoundNotDoneError`. -/
  | foundNotDone
  /-- The `resolve_variable`: `ValueError` "Context ... has no key ...". -/
  | noSuchKey (varname : String)
  /-- A Python `TypeError` (wrong call arity, iterating a
  non-iterable, calling a method on `None`). -/
  | typeError
deriving DecidableEq

/-! ## `curly/utils.py`: the variable resolver -/

/-- The `str.isdigit` restricted to ASCII digits: non-empty and all
characters are `0`-`9`. -/
def isDigits (s : String) : Bool :=
  !s.isEmpty && s.toList.all (fun c => '0' ≤ c && c ≤ '9')

/-- Numeric value of an all-digits string (`int(varname)`). -/
def digitsToNat (s : String) : Nat :=
  s.toList.foldl (fun acc c => 10 * acc + (c.toNat - '0'.toNat)) 0

/-- Python `container[key]` for a string key: dict item lookup.
Indexing a list or a string with a string key raises `TypeError`,
i.e. fails. -/
def getItemStr (container : Value) (key : String) : Option Value :=
  match container with
  | .dict m => ctxGet m key
  | _ => Option.none

/-- Python `container[i]` for an `int` key: list indexing and string
indexing (a character comes back as a one-character string). -/
def getItemInt (container : Value) (i : Nat) : Option Value :=
  match container with
  | .list xs => xs.get? i
  | .str s => (s.toList.get? i).map fun c => .str (String.mk [c])
  | _ => Option.none

/-- The attribute names of `None` (`dir(None)` under CPython 3.11, the model's reference interpreter). -/
def noneAttrNames : List String :=
  ["__bool__", "__class__", "__delattr__", "__dir__", "__doc__", "__eq__",
   "__format__", "__ge__", "__getattribute__", "__getstate__", "__gt__",
   "__hash__", "__init__", "__init_subclass__", "__le__", "__lt__",
   "__ne__", "__new__", "__reduce__", "__reduce_ex__", "__repr__",
   "__setattr__", "__sizeof__", "__str__", "__subclasshook__"]

/-- The attribute names of an `int` (`dir(5)` under CPython 3.11); `dir` of a `bool` is the identical list, as `bool` subclasses `int` and adds no attribute names. -/
def intAttrNames : List String :=
  ["__abs__", "__add__", "__and__", "__bool__", "__ceil__", "__class__",
   "__delattr__", "__dir__", "__divmod__", "__doc__", "__eq__",
   "__float__", "__floor__", "__floordiv__", "__format__", "__ge__",
   "__getattribute__", "__getnewargs__", "__getstate__", "__gt__",
   "__hash__", "__index__", "__init__", "__init_subclass__", "__int__",
   "__invert__", "__le__", "__lshift__", "__lt__", "__mod__", "__mul__",
   "__ne__", "__neg__", "__new__", "__or__", "__pos__", "__pow__",
   "__radd__", "__rand__", "__rdivmod__", "__reduce__", "__reduce_ex__",
   "__repr__", "__rfloordiv__", "__rlshift__", "__rmod__", "__rmul__",
   "__ror__", "__round__", "__rpow__", "__rrshift__", "__rshift__",
   "__rsub__", "__rtruediv__", "__rxor__", "__setattr__", "__sizeof__",
   "__str__", "__sub__", "__subclasshook__", "__truediv__", "__trunc__",
   "__xor__", "as_integer_ratio", "bit_count", "bit_length", "conjugate",
   "denominator", "from_bytes", "imag", "numerator", "real", "to_bytes"]

/-- The attribute names of a `str` (`dir` of a string under CPython 3.11). -/
def strAttrNames : List String :=
  ["__add__", "__class__", "__contains__", "__delattr__", "__dir__",
   "__doc__", "__eq__", "__format__", "__ge__", "__getattribute__",
   "__getitem__", "__getnewargs__", "__getstate__", "__gt__", "__hash__",
   "__init__", "__init_subclass__", "__iter__", "__le__", "__len__",
   "__lt__", "__mod__", "__mul__", "__ne__", "__new__", "__reduce__",
   "__reduce_ex__", "__repr__", "__rmod__", "__rmul__", "__setattr__",
   "__sizeof__", "__str__", "__subclasshook__", "capitalize", "casefold",
   "center", "count", "encode", "endswith", "expandtabs", "find", "format",
   "format_map", "index", "isalnum", "isalpha", "isascii", "isdecimal",
   "isdigit", "isidentifier", "islower", "isnumeric", "isprintable",
   "isspace", "istitle", "isupper", "join", "ljust", "lower", "lstrip",
   "maketrans", "partition", "removeprefix", "removesuffix", "replace",
   "rfind", "rindex", "rjust", "rpartition", "rsplit", "rstrip", "split",
   "splitlines", "startswith", "strip", "swapcase", "title", "translate",
   "upper", "zfill"]

/-- The attribute names of a `list` (`dir` of a list under CPython 3.11). -/
def listAttrNames : List String :=
  ["__add__", "__class__", "__class_getitem__", "__contains__",
   "__delattr__", "__delitem__", "__dir__", "__doc__", "__eq__",
   "__format__", "__ge__", "__getattribute__", "__getitem__",
   "__getstate__", "__gt__", "__hash__", "__iadd__", "__imul__",
   "__init__", "__init_subclass__", "__iter__", "__le__", "__len__",
   "__lt__", "__mul__", "__ne__", "__new__", "__reduce__", "__reduce_ex__",
   "__repr__", "__reversed__", "__rmul__", "__setattr__", "__setitem__",
   "__sizeof__", "__str__", "__subclasshook__", "append", "clear", "copy",
   "count", "extend", "index", "insert", "pop", "remove", "reverse", "sort"]

/-- The attribute names of a `dict` (`dir` of a dict under CPython 3.11). -/
def dictAttrNames : List String :=
  ["__class__", "__class_getitem__", "__contains__", "__delattr__",
   "__delitem__", "__dir__", "__doc__", "__eq__", "__format__", "__ge__",
   "__getattribute__", "__getitem__", "__getstate__", "__gt__", "__hash__",
   "__init__", "__init_subclass__", "__ior__", "__iter__", "__le__",
   "__len__", "__lt__", "__ne__", "__new__", "__or__", "__reduce__",
   "__reduce_ex__", "__repr__", "__reversed__", "__ror__", "__setattr__",
   "__setitem__", "__sizeof__", "__str__", "__subclasshook__", "clear",
   "copy", "fromkeys", "get", "items", "keys", "pop", "popitem",
   "setdefault", "update", "values"]

/-- Membership of a string in a list of names. -/
def strIn (a : String) : List String → Bool
  | [] => false
  | s :: rest => if s = a then true else strIn a rest

/-- Python `getattr(context, varname)` on modelled values,
transcribed for CPython 3.11: the lookup succeeds exactly when
`varname` is an attribute name of the value's builtin type (the
`dir()` tables above; builtins have no instance dictionary, so
`dir` of an instance is exact).  The attributes whose values the
value model can represent are returned exactly: `numerator` and
`real` of an `int` are the `int` itself, `denominator` is `1` and
`imag` is `0` (on a `bool` these are plain `int`s, `True.numerator`
being `1`); `None.__doc__`, `list.__hash__` and `dict.__hash__` are
`None`.  Every other attribute — bound methods, method wrappers,
type objects, and the non-empty builtin docstrings — is returned as
the unstructured `attrObj` tag.  Attributes of an `attrObj` itself
(such as `__name__` of a bound method) are beyond the model's
horizon, so `pyGetattr` is not exact there: it fails, while the
source may succeed.  Theorems that assert a *failing* lookup
therefore restrict the context to values that are not `attrObj`
(see `Value.isAttrObj`). -/
def pyGetattr (context : Value) (varname : String) : Option Value :=
  match context with
  | .none =>
      if varname = "__doc__" then some .none
      else if strIn varname noneAttrNames then
        some (.attrObj "NoneType" varname)
      else Option.none
  | .bool b =>
      if varname = "numerator" || varname = "real" then
        some (.int (if b then 1 else 0))
      else if varname = "denominator" then some (.int 1)
      else if varname = "imag" then some (.int 0)
      else if strIn varname intAttrNames then
        some (.attrObj "bool" varname)
      else Option.none
  | .int n =>
      if varname = "numerator" || varname = "real" then some (.int n)
      else if varname = "denominator" then some (.int 1)
      else if varname = "imag" then some (.int 0)
      else if strIn varname intAttrNames then
        some (.attrObj "int" varname)
      else Option.none
  | .str _ =>
      if strIn varname strAttrNames then some (.attrObj "str" varname)
      else Option.none
  | .list _ =>
      if varname = "__hash__" then some .none
      else if strIn varname listAttrNames then
        some (.attrObj "list" varname)
      else Option.none
  | .dict _ =>
      if varname = "__hash__" then some .none
      else if strIn varname dictAttrNames then
        some (.attrObj "dict" varname)
      else Option.none
  | .attrObj _ _ => Option.none

/-- The `utils.get_item_or_attr(varname, context)` for a string varname:
try `context[varname]`, then `getattr(context, varname)`, then — when
`varname` is all digits — `context[int(varname)]`.  The recursive int
call tries item access only: `getattr` with a non-string name raises
`TypeError` immediately, and the `isinstance(varname, str)` guard then
fails, so the int round never consults attributes nor recurses again. -/
def getItemOrAttr (varname : String) (context : Value) : Option Value :=
  match getItemStr context varname with
  | some v => some v
  | Option.none =>
      match pyGetattr context varname with
      | some v => some v
      | Option.none =>
          if isDigits varname then getItemInt context (digitsToNat varname)
          else Option.none

/-- Split a string at its first `.`, as `varname.split(".", 1)` does:
`none` when there is no dot. -/
def splitFirstDot (l : List Char) : Option (List Char × List Char) :=
  match l with
  | [] => Option.none
  | c :: rest =>
      if c = '.' then some ([], rest)
      else (splitFirstDot rest).map fun p => (c :: p.1, p.2)

/-- The `utils.resolve_variable(varname, context)`: try the whole name as
one literal key first; on failure split at the first dot and recurse
on both halves; a dot-free name whose direct lookup failed is an
error.  Both recursive names are strictly shorter than `varname`, so
fuel `varname.length + 1` (supplied by `resolveVarL`) is never
exhausted. -/
def resolveVarFuel (fuel : Nat) (varname : List Char) (context : Value) :
    Except Err Value :=
  match fuel with
  | 0 => .error (.noSuchKey (String.mk varname))
  | fuel + 1 =>
    match getItemOrAttr (String.mk varname) context with
    | some v => .ok v
    | Option.none =>
        match splitFirstDot varname with
        | Option.none => .error (.noSuchKey (String.mk varname))
        | some (currentName, restName) => do
            let newContext ← resolveVarFuel fuel currentName context
            resolveVarFuel fuel restName newContext

/-- The `resolve_variable` on a character list. -/
def resolveVarL (varname : List Char) (context : Value) : Except Err Value :=
  resolveVarFuel (varname.length + 1) varname context

/-- The `resolve_variable` on a `String` path. -/
def resolveVar (varname : String) (context : Value) : Except Err Value :=
  resolveVarL varname.toList context

/-! ## `shlex.split` (POSIX mode, whitespace_split, no comments)

`utils.make_expression` delegates word splitting to
`shlex.split(text)`, i.e. a POSIX `shlex` with `whitespace_split`
enabled and comment characters disabled.  The relevant behaviour:
whitespace (space, tab, CR, LF) separates words; `'…'` quotes
verbatim; `"…"` quotes with `\"` and `\\` escapes (a backslash before
any other character stays); an unquoted backslash escapes the next
character; EOF inside a quote raises `No closing quotation`; EOF right
after a backslash raises `No escaped character`. -/

/-- The `shlex.whitespace` characters. -/
def shlexWhitespace (c : Char) : Bool :=
  c = ' ' || c = '\t' || c = '\r' || c = '\n'

/-- Lexing state of the `shlex` scanner: outside any quote, inside
`'…'`, or inside `"…"`. -/
inductive SState where
  | norm
  | inSingle
  | inDouble
deriving DecidableEq

/-- Core scanner for `shlex.split`, one transition per input
character.  `cur` is the token accumulated so far (reversed),
`started` tells whether a token is in progress (a closed empty quote
still yields a token), `acc` holds finished tokens (reversed).
Outside quotes whitespace ends a token and a backslash escapes the
next character; inside `'…'` everything is literal; inside `"…"`,
`\"` and `\\` escape and a backslash before any other character is
kept.  EOF inside a quote is `No closing quotation`, EOF right after
a backslash is `No escaped character`. -/
def shlexRun (cs : List Char) (st : SState) (cur : List Char)
    (started : Bool) (acc : List String) : Except Err (List String) :=
  match cs with
  | [] =>
      match st with
      | .norm =>
          let acc := if started then String.mk cur.reverse :: acc else acc
          .ok acc.reverse
      | _ => .error .noClosingQuotation
  | c :: rest =>
      match st with
      | .norm =>
          if shlexWhitespace c then
            if started then
              shlexRun rest .norm [] false (String.mk cur.reverse :: acc)
            else
              shlexRun rest .norm [] false acc
          else if c = '\'' then shlexRun rest .inSingle cur started acc
          else if c = '"' then shlexRun rest .inDouble cur started acc
          else if c = '\\' then
            match rest with
            | [] => .error .noEscapedChar
            | d :: rest' => shlexRun rest' .norm (d :: cur) true acc
          else shlexRun rest .norm (c :: cur) true acc
      | .inSingle =>
          if c = '\'' then shlexRun rest .norm cur true acc
          else shlexRun rest .inSingle (c :: cur) started acc
      | .inDouble =>
          if c = '"' then shlexRun rest .norm cur true acc
          else if c = '\\' then
            match rest with
            | [] => .error .noEscapedChar
            | d :: rest' =>
                if d = '"' || d = '\\' then
                  shlexRun rest' .inDouble (d :: cur) started acc
                else shlexRun rest' .inDouble (d :: '\\' :: cur) started acc
          else shlexRun rest .inDouble (c :: cur) started acc

/-- The `shlex.split(s)` with POSIX rules as configured by
`utils.make_expression`. -/
def shlexSplit (s : String) : Except Err (List String) :=
  shlexRun s.toList .norm [] false []

/-- The characters Python `str.strip()` removes (the six ASCII
whitespace characters). -/
def pyStripWs (c : Char) : Bool :=
  c = ' ' || c = '\t' || c = '\n' || c = '\r' || c = '\x0b' || c = '\x0c'

/-- Python `str.strip()`: drop leading and trailing whitespace. -/
def pyStrip (s : String) : String :=
  String.mk
    (((s.toList.dropWhile pyStripWs).reverse.dropWhile pyStripWs).reverse)

/-- The `utils.make_expression(text)`: take the text (or `""` for a
missing/empty expression), strip it, word-split it with `shlex`, and
represent an empty result as `[""]`. -/
def makeExpression (text : Option String) : Except Err (List String) := do
  let t := pyStrip (text.getD "")
  let words ← shlexSplit t
  pure (if words.isEmpty then [""] else words)

/-! ## `subprocess.list2cmdline`

`ExpressionMixin.evaluate_expression` re-joins the word list with
`subprocess.list2cmdline` before resolving it; this is a faithful
port of the CPython routine. -/

/-- The character loop of `list2cmdline` over one argument.  `bsBuf`
counts pending backslashes whose treatment depends on the following
character; the result is the emitted text together with the buffer
still pending at the end of the argument. -/
def cmdlineArg (cs : List Char) (bsBuf : Nat) : List Char × Nat :=
  match cs with
  | [] => ([], bsBuf)
  | c :: rest =>
      if c = '\\' then cmdlineArg rest (bsBuf + 1)
      else if c = '"' then
        let (tail, pending) := cmdlineArg rest 0
        (List.replicate (bsBuf * 2) '\\' ++ '\\' :: '"' :: tail, pending)
      else
        let (tail, pending) := cmdlineArg rest 0
        (List.replicate bsBuf '\\' ++ c :: tail, pending)

/-- The `subprocess.list2cmdline(seq)`: space-join the arguments, double
quoting any argument that is empty or contains a space or tab.  The
pending backslash buffer is flushed once after the loop and — the
buffer is not cleared in between — once more before a closing
quote. -/
def list2cmdline (seq : List String) : String :=
  let pieces := seq.map fun arg =>
    let chars := arg.toList
    let needquote := chars.contains ' ' || chars.contains '\t' || arg.isEmpty
    let (body, pending) := cmdlineArg chars 0
    if needquote then
      String.mk ('"' :: body ++ List.replicate pending '\\'
        ++ List.replicate pending '\\' ++ ['"'])
    else String.mk (body ++ List.replicate pending '\\')
  String.intercalate " " pieces

/-! ## `curly/lexer.py`: the tokenizer

The lexer's three token patterns (compiled with `re.VERBOSE`,
`re.MULTILINE` and `re.DOTALL`) are, after stripping the verbose-mode
whitespace:

* `PrintToken`:      `\x7b\x7b\s*((?:\\.|[^\x7b\x7d])+)\s*\x7d\x7d`
* `StartBlockToken`: `\x7b%\s*([a-zA-Z0-9_-]+)((?:\\.|[^\x7b\x7d])+)?\s*%\x7d`
* `EndBlockToken`:   `\x7b%\s*/\s*([a-zA-Z0-9_-]+)\s*%\x7d`

`tokenize` scans with `finditer` over the alternation
`(?P<PrintToken>…)|(?P<StartBlockToken>…)|(?P<EndBlockToken>…)`
(the subclass walk inserts the patterns in that order), emitting a
`LiteralToken` for every gap between matches. -/

/-- The fragment of Python regular expressions the lexer uses.
`star` and the derived forms are greedy; `alt` prefers its left
alternative — the backtracking matcher below returns candidate
matches in exactly Python's preference order. -/
inductive RE where
  | epsilon
  | chr (p : Char → Bool)
  | strlit (s : List Char)
  | seq (a b : RE)
  | alt (a b : RE)
  | star (a : RE)
  | group (n : Nat) (a : RE)

/-- Pattern `x+` as `x` followed by `x*`. -/
def RE.plus (a : RE) : RE := .seq a (.star a)

/-- Pattern `x?`, preferring to match. -/
def RE.opt (a : RE) : RE := .alt a .epsilon

/-- Captured groups: group number to captured text. -/
abbrev Caps := List (Nat × List Char)

/-- Record a capture (last assignment wins, as in `re`). -/
def capSet (caps : Caps) (n : Nat) (s : List Char) : Caps :=
  match caps with
  | [] => [(n, s)]
  | (m, t) :: rest => if m = n then (m, s) :: rest else (m, t) :: capSet rest n s

/-- Look up a capture group. -/
def capGet (caps : Caps) (n : Nat) : Option (List Char) :=
  match caps with
  | [] => Option.none
  | (m, t) :: rest => if m = n then some t else capGet rest n

/-- All ways `r` can match a prefix of `l`, as pairs of (remaining
input, captures), in Python's backtracking preference order: the
head of the list is the match `re` reports.  A `star` unfolds only
when its body consumed at least one character — true of every
repetition in the lexer's patterns, whose bodies cannot match the
empty string.  `fuel` bounds the recursion depth; `matchFirst` below
supplies enough for the depth bound
`(size of pattern + 1) * (length of input + 1)` so the cutoff is
never reached. -/
def matchRE (fuel : Nat) (r : RE) (l : List Char) (caps : Caps) :
    List (List Char × Caps) :=
  match fuel with
  | 0 => []
  | fuel + 1 =>
    match r with
    | .epsilon => [(l, caps)]
    | .chr p =>
        match l with
        | [] => []
        | c :: rest => if p c then [(rest, caps)] else []
    | .strlit s =>
        if s.isPrefixOf l then [(l.drop s.length, caps)] else []
    | .seq a b =>
        (matchRE fuel a l caps).flatMap fun pr =>
          matchRE fuel b pr.1 pr.2
    | .alt a b => matchRE fuel a l caps ++ matchRE fuel b l caps
    | .star a =>
        ((matchRE fuel a l caps).flatMap fun pr =>
          if pr.1.length < l.length then matchRE fuel (.star a) pr.1 pr.2
          else []) ++ [(l, caps)]
    | .group n a =>
        (matchRE fuel a l caps).map fun pr =>
          (pr.1, capSet pr.2 n (l.take (l.length - pr.1.length)))

/-- Structural size of a pattern, for the fuel bound. -/
def reSize : RE → Nat
  | .epsilon => 1
  | .chr _ => 1
  | .strlit _ => 1
  | .seq a b => reSize a + reSize b + 1
  | .alt a b => reSize a + reSize b + 1
  | .star a => reSize a + 1
  | .group _ a => reSize a + 1

/-- Python `\s` on the characters relevant here (the six ASCII
whitespace characters). -/
def wsChar (c : Char) : Bool :=
  c = ' ' || c = '\t' || c = '\n' || c = '\r' || c = '\x0b' || c = '\x0c'

/-- The `REGEXP_FUNCTION` character class `[a-zA-Z0-9_-]`. -/
def funcChar (c : Char) : Bool :=
  ('a' ≤ c && c ≤ 'z') || ('A' ≤ c && c ≤ 'Z') || ('0' ≤ c && c ≤ '9') ||
    c = '_' || c = '-'

/-- One atom of `REGEXP_EXPRESSION`: `\\.` (an escaped character, where
`.` matches anything under `re.DOTALL`) or any character other than a
brace. -/
def exprAtom : RE :=
  .alt (.seq (.chr (· = '\\')) (.chr fun _ => true))
    (.chr fun c => !(c = '\x7b' || c = '\x7d'))

/-- Pattern `\s*`. -/
def wsStar : RE := .star (.chr wsChar)

/-- Pattern `PrintToken.REGEXP`. -/
def printRE : RE :=
  .seq (.strlit ['\x7b', '\x7b'])
    (.seq wsStar
      (.seq (.group 1 (RE.plus exprAtom))
        (.seq wsStar (.strlit ['\x7d', '\x7d']))))

/-- Pattern `StartBlockToken.REGEXP`. -/
def startRE : RE :=
  .seq (.strlit ['\x7b', '%'])
    (.seq wsStar
      (.seq (.group 1 (RE.plus (.chr funcChar)))
        (.seq (RE.opt (.group 2 (RE.plus exprAtom)))
          (.seq wsStar (.strlit ['%', '\x7d'])))))

/-- Pattern `EndBlockToken.REGEXP`. -/
def endRE : RE :=
  .seq (.strlit ['\x7b', '%'])
    (.seq wsStar
      (.seq (.chr (· = '/'))
        (.seq wsStar
          (.seq (.group 1 (RE.plus (.chr funcChar)))
            (.seq wsStar (.strlit ['%', '\x7d']))))))

/-- The first (leftmost-preference) match of `r` against a prefix of
`l`, as `re.match` computes it.  Along any call chain of `matchRE`,
consecutive steps either descend into a strictly smaller pattern or
unfold a `star` after consuming input, so the depth never exceeds
`(reSize r + 1) * (l.length + 1)` and this fuel is not exhausted. -/
def matchFirst (r : RE) (l : List Char) : Option (List Char × Caps) :=
  (matchRE ((reSize r + 1) * (l.length + 1)) r l []).head?

/-- The three tag token classes, in the order
`get_token_patterns` inserts their patterns into the alternation. -/
inductive TKind where
  | print
  | startBlock
  | endBlock
deriving DecidableEq

/-- Length of the first match of `r` at the head of `l`.  The patterns
always consume at least their two-character opener; the zero-length
guard is never taken and only makes the scanner's progress
structurally evident. -/
def matchKindAt (r : RE) (l : List Char) : Option Nat :=
  match matchFirst r l with
  | Option.none => Option.none
  | some (rest, _) =>
      let n := l.length - rest.length
      if n = 0 then Option.none else some n

/-- Match the tokenizer alternation at the head of `l`: Python's
alternation tries `PrintToken`, `StartBlockToken`, `EndBlockToken` in
that order and commits to the first sub-pattern that matches. -/
def matchTokenAt (l : List Char) : Option (TKind × Nat) :=
  match matchKindAt printRE l with
  | some n => some (.print, n)
  | Option.none =>
      match matchKindAt startRE l with
      | some n => some (.startBlock, n)
      | Option.none =>
          match matchKindAt endRE l with
          | some n => some (.endBlock, n)
          | Option.none => Option.none

/-- Leftmost match of the alternation anywhere in `l`, as
`finditer` finds it: `(gap, kind, length)` where `gap` is the number
of characters before the match. -/
def scanNext (l : List Char) : Option (Nat × TKind × Nat) :=
  match matchTokenAt l with
  | some (k, n) => some (0, k, n)
  | Option.none =>
      match l with
      | [] => Option.none
      | _ :: rest => (scanNext rest).map fun r => (r.1 + 1, r.2.1, r.2.2)

/-- A lexer token.  Every constructor stores the raw source substring
(`Token.data` / `raw_string`) alongside its extracted contents. -/
inductive Token where
  /-- The `LiteralToken`: gap text, with `contents["text"]` the
  backslash-unescaped form. -/
  | literal (raw : String) (text : String)
  /-- The `PrintToken`: `contents["expression"]`. -/
  | print (raw : String) (expression : List String)
  /-- The `StartBlockToken`: `contents["function"]` and
  `contents["expression"]`. -/
  | startBlock (raw : String) (function : String) (expression : List String)
  /-- The `EndBlockToken`: `contents["function"]`. -/
  | endBlock (raw : String) (function : String)
deriving DecidableEq

/-- The raw source substring of a token. -/
def Token.raw : Token → String
  | .literal raw _ => raw
  | .print raw _ => raw
  | .startBlock raw _ _ => raw
  | .endBlock raw _ => raw

/-- The `LiteralToken.TEXT_UNESCAPE.sub(r"\1", text)`: each backslash
followed by any character collapses to that character, scanning left
to right; a trailing lone backslash stays. -/
def textUnescape : List Char → List Char
  | [] => []
  | c :: rest =>
      if c = '\\' then
        match rest with
        | [] => [c]
        | d :: rest' => d :: textUnescape rest'
      else c :: textUnescape rest

/-- Build a `LiteralToken` from gap text. -/
def literalToken (raw : List Char) : Token :=
  .literal (String.mk raw) (String.mk (textUnescape raw))

/-- The `Token.__init__` plus `extract_contents` for the three tag token
classes: re-match the class pattern against the raw string (a
mismatch raises `ValueError`; unreachable for strings produced by the
scan) and extract the groups.  `make_expression` may fail inside
`shlex`. -/
def buildToken (k : TKind) (raw : List Char) : Except Err Token :=
  match k with
  | .print =>
      match matchFirst printRE raw with
      | Option.none => .error .tokenPatternMismatch
      | some (_, caps) => do
          let expr ← makeExpression ((capGet caps 1).map String.mk)
          pure (.print (String.mk raw) expr)
  | .startBlock =>
      match matchFirst startRE raw with
      | Option.none => .error .tokenPatternMismatch
      | some (_, caps) => do
          let fn := (String.mk ((capGet caps 1).getD [])).trim
          let expr ← makeExpression ((capGet caps 2).map String.mk)
          pure (.startBlock (String.mk raw) fn expr)
  | .endBlock =>
      match matchFirst endRE raw with
      | Option.none => .error .tokenPatternMismatch
      | some (_, caps) => do
          let fn := (String.mk ((capGet caps 1).getD [])).trim
          pure (.endBlock (String.mk raw) fn)

/-- The `lexer.tokenize`: repeatedly find the leftmost tag match, emit a
`LiteralToken` for any gap before it and the typed token for the
match itself, and emit one final `LiteralToken` for a non-empty
leftover.  Every found match consumes at least one character
(`scanNext_bounds`), so fuel `l.length + 1` (supplied by `tokenizeL`)
is never exhausted. -/
def tokenizeF (fuel : Nat) (l : List Char) : Except Err (List Token) :=
  match fuel with
  | 0 => .error .tokenPatternMismatch
  | fuel + 1 =>
    match scanNext l with
    | Option.none => .ok (if l.isEmpty then [] else [literalToken l])
    | some (g, k, n) =>
        let gap := l.take g
        let raw := (l.drop g).take n
        let remaining := (l.drop g).drop n
        do
          let tok ← buildToken k raw
          let toks ← tokenizeF fuel remaining
          pure ((if g = 0 then [] else [literalToken gap]) ++ tok :: toks)

/-- The `tokenize` on a character list. -/
def tokenizeL (l : List Char) : Except Err (List Token) :=
  tokenizeF (l.length + 1) l

/-- The `tokenize` on a `String`. -/
def tokenize (s : String) : Except Err (List Token) :=
  tokenizeL s.toList

/-! ## `curly/parser.py`: the stack-based parser and the node tree

Python parser nodes are objects with a class, a producing token, a
`done` flag, a child list (`UserList.data`) and — assigned dynamically
during `parse_end_if_token` — an `elsenode` attribute.  `PNode`
mirrors that object layout with one uniform constructor; the class
tag selects the behaviour, as method dispatch does. -/

/-- The parser node classes. -/
inductive PCls where
  | literal
  | print
  | conditional
  | ifCls
  | elseCls
  | loop
  | root
deriving DecidableEq

/-- A parser/AST node: class, producing token (`Option` because
`RootNode` stores `None`), completion flag, children, `elsenode`. -/
inductive PNode where
  | mk (cls : PCls) (token : Option Token) (done : Bool)
      (children : List PNode) (elsenode : Option PNode)

/-- Class tag of a node. -/
def PNode.cls : PNode → PCls
  | .mk c _ _ _ _ => c

/-- Producing token of a node. -/
def PNode.token : PNode → Option Token
  | .mk _ t _ _ _ => t

/-- Completion flag of a node. -/
def PNode.done : PNode → Bool
  | .mk _ _ d _ _ => d

/-- Children (`UserList.data`) of a node. -/
def PNode.children : PNode → List PNode
  | .mk _ _ _ ch _ => ch

/-- The `elsenode` attribute of a node. -/
def PNode.elsenode : PNode → Option PNode
  | .mk _ _ _ _ e => e

mutual

/-- Number of nodes in a tree (children and `elsenode` included);
used as recursion fuel by the evaluator and the validator. -/
def PNode.size : PNode → Nat
  | .mk _ _ _ ch e => PNode.sizeList ch + PNode.sizeOpt e + 1

/-- Total size of a list of nodes. -/
def PNode.sizeList : List PNode → Nat
  | [] => 0
  | n :: rest => PNode.size n + PNode.sizeList rest

/-- Total size of an optional node. -/
def PNode.sizeOpt : Option PNode → Nat
  | Option.none => 0
  | some n => PNode.size n

end

/-- The `LiteralNode(token)`: complete on construction. -/
def mkLiteralNode (t : Token) : PNode := .mk .literal (some t) true [] Option.none

/-- The `PrintNode(token)`: complete on construction. -/
def mkPrintNode (t : Token) : PNode := .mk .print (some t) true [] Option.none

/-- The `ConditionalNode(token)`: an incomplete marker. -/
def mkConditionalNode (t : Token) : PNode :=
  .mk .conditional (some t) false [] Option.none

/-- The `IfNode(token)`: incomplete, no `elsenode` yet. -/
def mkIfNode (t : Token) : PNode := .mk .ifCls (some t) false [] Option.none

/-- The `ElseNode(token)`: incomplete. -/
def mkElseNode (t : Token) : PNode := .mk .elseCls (some t) false [] Option.none

/-- The `LoopNode(token)`: incomplete. -/
def mkLoopNode (t : Token) : PNode := .mk .loop (some t) false [] Option.none

/-- The `RootNode(nodes)`: complete, token `None`. -/
def mkRootNode (nodes : List PNode) : PNode :=
  .mk .root Option.none true nodes Option.none

/-- Close a node during a rewind: set `done` and install the popped
nodes (already in source order) as its children. -/
def PNode.close (n : PNode) (nodes : List PNode) : PNode :=
  match n with
  | .mk c t _ _ e => .mk c t true nodes e

/-- Assign the `elsenode` attribute. -/
def PNode.setElse (n : PNode) (e : Option PNode) : PNode :=
  match n with
  | .mk c t d ch _ => .mk c t d ch e

/-- The `rewind_stack_for(stack, search_for=...)`: pop completed nodes
(collected in source order in `acc`) until an incomplete node
appears; it must have one of the searched classes, and is closed over
the popped nodes and pushed back.  The stack's head is its top. -/
def rewindStackFor (stack : List PNode) (searchFor : PCls → Bool)
    (acc : List PNode) : Except Err (List PNode) :=
  match stack with
  | [] => .error .noUnfinishedNode
  | node :: rest =>
      if node.done then rewindStackFor rest searchFor (node :: acc)
      else if searchFor node.cls then .ok (node.close acc :: rest)
      else .error .unexpectedUnfinishedNode

/-- The chaining loop of `parse_end_if_token`: wire each branch's
`elsenode` to the following branch; a non-final else-branch is a
`ValueError` ("has multiple elses"). -/
def chainIf (prev : PNode) (rest : List PNode) : Except Err PNode :=
  match rest with
  | [] => .ok prev
  | next :: rest' =>
      if prev.cls = .elseCls then .error .multipleElses
      else do
        let chained ← chainIf next rest'
        .ok (prev.setElse (some chained))

/-- The `parse_end_if_token`: close the trailing `If`/`Else` branch, close
the enclosing `ConditionalNode`, chain the collected branches and
push the first branch (the `ConditionalNode` marker is discarded). -/
def parseEndIfToken (stack : List PNode) : Except Err (List PNode) := do
  let s1 ← rewindStackFor stack (fun c => c = .ifCls || c = .elseCls) []
  let s2 ← rewindStackFor s1 (fun c => c = .conditional) []
  match s2 with
  | [] => .error .unpackError
  | cond :: rest =>
      match cond.children with
      | [] => .error .unpackError
      | first :: others => do
          let chained ← chainIf first others
          pure (chained :: rest)

/-- The `parse_start_block_token`: dispatch on the block function. -/
def parseStartBlockToken (stack : List PNode) (t : Token) (fn : String) :
    Except Err (List PNode) :=
  if fn = "if" then .ok (mkIfNode t :: mkConditionalNode t :: stack)
  else if fn = "elif" then do
    let s ← rewindStackFor stack (fun c => c = .ifCls) []
    pure (mkIfNode t :: s)
  else if fn = "else" then do
    let s ← rewindStackFor stack (fun c => c = .ifCls) []
    pure (mkElseNode t :: s)
  else if fn = "loop" then .ok (mkLoopNode t :: stack)
  else .error (.unknownStartBlock fn)

/-- The `parse_end_block_token`: dispatch on the block function. -/
def parseEndBlockToken (stack : List PNode) (fn : String) :
    Except Err (List PNode) :=
  if fn = "if" then parseEndIfToken stack
  else if fn = "loop" then rewindStackFor stack (fun c => c = .loop) []
  else .error (.unknownEndBlock fn)

/-- One step of `parse`'s token loop. -/
def parseToken (stack : List PNode) (t : Token) : Except Err (List PNode) :=
  match t with
  | .literal _ _ => .ok (mkLiteralNode t :: stack)
  | .print _ _ => .ok (mkPrintNode t :: stack)
  | .startBlock _ fn _ => parseStartBlockToken stack t fn
  | .endBlock _ fn => parseEndBlockToken stack fn

/-- The token loop of `parse`. -/
def parseFold (ts : List Token) (stack : List PNode) :
    Except Err (List PNode) :=
  match ts with
  | [] => .ok stack
  | t :: rest => do
      let stack' ← parseToken stack t
      parseFold rest stack'

/-- The inner `for subnode in root` loop of
`validate_for_all_nodes_done`, with the recursive validation step
passed in. -/
def validateInnerWith (f : PNode → Except Err Unit) :
    List PNode → Except Err Unit
  | [] => .ok ()
  | n :: rest => do
      f n
      validateInnerWith f rest

/-- The outer `for node in root` loop of
`validate_for_all_nodes_done`; `allNodes` is the full child list the
inner loop re-traverses on every outer iteration. -/
def validateOuterWith (f : PNode → Except Err Unit)
    (nodes allNodes : List PNode) : Except Err Unit :=
  match nodes with
  | [] => .ok ()
  | n :: rest =>
      if !n.done then .error .foundNotDone
      else do
        validateInnerWith f allNodes
        validateOuterWith f rest allNodes

/-- The `validate_for_all_nodes_done(root)`: walk the children; an
incomplete child is an unclosed-tag error; each child of the current
node is then validated as a root itself (the source loops over
`root` again in the inner loop).  The recursion only descends into
strictly smaller nodes, so fuel `root.size` (supplied by
`validateAllDone`) is never exhausted. -/
def validateF (fuel : Nat) (root : PNode) : Except Err Unit :=
  match fuel with
  | 0 => .error .foundNotDone
  | fuel + 1 =>
    match root with
    | .mk _ _ _ ch _ => validateOuterWith (validateF fuel) ch ch

/-- The `validate_for_all_nodes_done(root)`. -/
def validateAllDone (root : PNode) : Except Err Unit :=
  validateF root.size root

/-- The `parser.parse(tokens)`: run the token loop from an empty stack,
wrap the final stack (bottom first) in a `RootNode` and validate that
every node is complete. -/
def parse (ts : List Token) : Except Err PNode := do
  let stack ← parseFold ts []
  let root := mkRootNode stack.reverse
  validateAllDone root
  pure root

/-! ## The evaluator (`Node.emit` / `Node.process`) -/

/-- The `contents["expression"]` of a token (only print and start-block
tokens carry one; the other classes never reach an expression
access). -/
def Token.expression : Token → List String
  | .print _ e => e
  | .startBlock _ _ e => e
  | _ => []

/-- The `contents["text"]` of a literal token (only literal tokens carry
one). -/
def Token.literalText : Token → String
  | .literal _ text => text
  | _ => ""

/-- The `ExpressionMixin.evaluate_expression`: re-join the word list with
`subprocess.list2cmdline` and resolve the result in the context. -/
def evaluateExpression (t : Option Token) (ctx : Context) : Except Err Value :=
  resolveVar (list2cmdline ((t.getD (.literal "" "")).expression)) (.dict ctx)

/-- Code-point comparison `a <= b` on strings, as Python compares
`str` keys. -/
def charListLe (a b : List Char) : Bool :=
  match a, b with
  | [], _ => true
  | _ :: _, [] => false
  | c :: cs, d :: ds => if c < d then true else if d < c then false
      else charListLe cs ds

/-- Key order on dict entries: `sorted(resolved.items())` compares
the `(key, value)` tuples, which on distinct string keys is the
code-point order of the keys. -/
def keyLe (a b : String × Value) : Prop :=
  charListLe a.1.toList b.1.toList = true

instance : DecidableRel keyLe :=
  fun a b =>
    inferInstanceAs (Decidable (charListLe a.1.toList b.1.toList = true))

/-- The `sorted(resolved.items())` for a string-keyed dict: a stable sort
by key, as Python's stable `sorted` computes it (distinct keys make
the tuple comparison never reach the values). -/
def sortedItems (m : List (String × Value)) : List (String × Value) :=
  m.insertionSort keyLe

/-- The `item` values of a dict loop, in sorted order:
`item = dict(key=k, value=v)`. -/
def dictItems (m : List (String × Value)) : List Value :=
  (sortedItems m).map fun p => .dict [("key", .str p.1), ("value", p.2)]

/-- Python iteration over a non-dict value: lists yield elements,
strings yield one-character strings, dicts yield keys; everything
else raises `TypeError`. -/
def pyIter : Value → Except Err (List Value)
  | .list xs => .ok xs
  | .str s => .ok (s.toList.map fun c => .str (String.mk [c]))
  | .dict m => .ok (m.map fun p => .str p.1)
  | _ => .error .typeError

/-- The `Node.emit`'s default body — concatenate the children's
emissions — with the child emission function passed in. -/
def emitListWith (f : PNode → Context → Except Err (List String))
    (children : List PNode) (ctx : Context) : Except Err (List String) :=
  match children with
  | [] => .ok []
  | n :: rest => do
      let out ← f n ctx
      let outs ← emitListWith f rest ctx
      pure (out ++ outs)

/-- The iteration loop of `LoopNode.emit`: assign `item` on the single
context copy and emit the body, threading the same (mutated) copy
into the next iteration. -/
def loopIterWith (f : PNode → Context → Except Err (List String))
    (children : List PNode) (contextCopy : Context) (items : List Value) :
    Except Err (List String) :=
  match items with
  | [] => .ok []
  | v :: rest => do
      let c2 := ctxSet contextCopy "item" v
      let out ← emitListWith f children c2
      let outs ← loopIterWith f children c2 rest
      pure (out ++ outs)

/-- The `Node.emit(context)` and its overrides, modelled as the list of
chunks the generator yields (an exception aborts the computation).
The loop case mirrors `LoopNode.emit`: the expression is resolved,
the context is copied *once*, and the iteration threads that single
copy through `loopIterWith`.  The recursion only descends into
strictly smaller nodes, so fuel `n.size` (supplied by
`PNode.emit`) is never exhausted. -/
def emitF (fuel : Nat) (n : PNode) (ctx : Context) :
    Except Err (List String) :=
  match fuel with
  | 0 => .error .typeError
  | fuel + 1 =>
    match n with
    | .mk .literal tok _ _ _ => .ok [(tok.getD (.literal "" "")).literalText]
    | .mk .print tok _ _ _ => do
        let v ← evaluateExpression tok ctx
        pure [pyStr v]
    | .mk .conditional _ _ _ _ =>
        -- `ConditionalNode.emit` calls `self.ifnode.emit`, but `ifnode`
        -- stays `None`: such a node never survives parsing.
        .error .typeError
    | .mk .ifCls tok _ children els => do
        let v ← evaluateExpression tok ctx
        if truthy v then emitListWith (emitF fuel) children ctx
        else
          match els with
          | some e => emitF fuel e ctx
          | Option.none => .ok []
    | .mk .elseCls _ _ children _ => emitListWith (emitF fuel) children ctx
    | .mk .loop tok _ children _ => do
        let resolved ← evaluateExpression tok ctx
        let contextCopy := ctx
        match resolved with
        | .dict m => loopIterWith (emitF fuel) children contextCopy (dictItems m)
        | other => do
            let items ← pyIter other
            loopIterWith (emitF fuel) children contextCopy items
    | .mk .root _ _ children _ => emitListWith (emitF fuel) children ctx

/-- The `Node.emit(context)`. -/
def PNode.emit (n : PNode) (ctx : Context) : Except Err (List String) :=
  emitF n.size n ctx

/-- The `Node.process(context)`: `"".join(node.emit(context))`. -/
def PNode.process (n : PNode) (ctx : Context) : Except Err String :=
  (n.emit ctx).map String.join

/-- The `Template.__init__`: compile the template text to its AST
(`parser.parse(lexer.tokenize(text))`).  The engine consumes the
token generator eagerly here; claims about interleaving of lexer and
parser errors are not drawn from this model. -/
def templateCompile (text : String) : Except Err PNode := do
  let ts ← tokenize text
  parse ts

/-- The `Template.render(context)`: `self.node.process(context)`. -/
def templateRender (node : PNode) (ctx : Context) : Except Err String :=
  node.process ctx

/-- The compile-then-render pipeline
`parse(tokenize(text)).process(context)` — the body of
`Template.__init__` followed by `Template.render`. -/
def renderPipeline (text : String) (ctx : Context) : Except Err String := do
  let root ← templateCompile text
  templateRender root ctx

/-- Number of parameters of `Template.__init__` besides `self`
(`def __init__(self, text)` in `curly/template.py`). -/
def templateInitParamCount : Nat := 1

/-- Number of positional arguments `Env.template` passes to the
`Template` constructor (`template.Template(self, text)` in
`curly/env.py`). -/
def envTemplateArgCount : Nat := 2

/-- The `Env.template(text)`: the constructor call raises `TypeError`
when the argument count does not match the constructor's
signature. -/
def envTemplate (text : String) : Except Err PNode :=
  if envTemplateArgCount = templateInitParamCount then templateCompile text
  else .error .typeError

/-- The `curly.render(text, context)`:
`DEFAULT_ENV.template(text).render(context)`. -/
def render (text : String) (ctx : Context) : Except Err String := do
  let root ← envTemplate text
  templateRender root ctx

/-! ## Definitions used to state the claims -/

/-- A dict-level operation `LoopNode.emit` performs on its context
objects. -/
inductive DictOp where
  | copyCtx
  | setItemCtx (key : String)
deriving DecidableEq

/-- The trace of dict operations one `LoopNode.emit` invocation
performs on its context objects, transcribed from the source: the
single `context_copy = context.copy()` runs before the loop, and each
iteration then executes `context_copy["item"] = ...` on that same
copy. -/
def loopEmitOps (items : List Value) : List DictOp :=
  DictOp.copyCtx :: items.map fun _ => DictOp.setItemCtx "item"

/-- The successive values of `context_copy` as the iterations of
`LoopNode.emit` see them: the `item` assignment of each iteration is
applied to the copy left by the previous one. -/
def loopIterCtxs (contextCopy : Context) (items : List Value) : List Context :=
  match items with
  | [] => []
  | v :: rest =>
      let c2 := ctxSet contextCopy "item" v
      c2 :: loopIterCtxs c2 rest

/-- Modelled from the spec: loop evaluation in which each iteration
uses a fresh shallow copy of the *incoming* context augmented with
the synthetic `item` key (`§4.4`: "Each iteration uses a fresh
shallow copy of the incoming context").  To be compared with the
threaded single-copy iteration of `LoopNode.emit`. -/
def specLoopEmit (children : List PNode) (ctx : Context) (items : List Value) :
    Except Err (List String) :=
  match items with
  | [] => .ok []
  | v :: rest => do
      let c2 := ctxSet ctx "item" v
      let out ← emitListWith PNode.emit children c2
      let outs ← specLoopEmit children ctx rest
      pure (out ++ outs)

/-- A token that parses to a single completed terminal node: a
literal or a print token. -/
def simpleTok (t : Token) : Prop :=
  (∃ raw text, t = .literal raw text) ∨ (∃ raw e, t = .print raw e)

/-- Concatenation of the raw source substrings of a token list. -/
def concatRaws : List Token → String
  | [] => ""
  | t :: ts => t.raw ++ concatRaws ts

/-- The raw source substrings of a token list, as character lists. -/
def rawPieces (ts : List Token) : List (List Char) :=
  ts.map fun t => t.raw.toList

/-- Start offset of the `i`-th token's raw substring in the source:
the total length of the previous tokens' raw substrings. -/
def startOf (ts : List Token) (i : Nat) : Nat :=
  (((rawPieces ts).take i).map List.length).sum

/-! ## Supporting lemmas -/

theorem splitFirstDot_length {l pre post : List Char}
    (h : splitFirstDot l = some (pre, post)) :
    pre.length + post.length + 1 = l.length := by
  induction l generalizing pre post with
  | nil => simp [splitFirstDot] at h
  | cons c rest ih =>
      by_cases hc : c = '.'
      · simp [splitFirstDot, hc] at h
        simp [← h.1, ← h.2]
      · simp only [splitFirstDot, hc, if_false, Option.map_eq_some'] at h
        obtain ⟨⟨p1, p2⟩, hp, he⟩ := h
        cases he
        have := @ih p1 p2 hp
        simp only [List.length_cons]
        omega

theorem matchKindAt_pos {r : RE} {l : List Char} {n : Nat}
    (h : matchKindAt r l = some n) : 1 ≤ n ∧ n ≤ l.length := by
  unfold matchKindAt at h
  rcases hm : matchFirst r l with _ | ⟨rest, caps⟩ <;> rw [hm] at h
  · simp at h
  · simp only [] at h
    by_cases hz : l.length - rest.length = 0
    · simp [hz] at h
    · rw [if_neg hz] at h
      cases h
      omega

theorem matchTokenAt_pos {l : List Char} {k : TKind} {n : Nat}
    (h : matchTokenAt l = some (k, n)) : 1 ≤ n ∧ n ≤ l.length := by
  unfold matchTokenAt at h
  rcases h1 : matchKindAt printRE l with _ | n1 <;> rw [h1] at h
  · rcases h2 : matchKindAt startRE l with _ | n2 <;> rw [h2] at h
    · rcases h3 : matchKindAt endRE l with _ | n3 <;> rw [h3] at h
      · simp at h
      · cases h
        exact matchKindAt_pos h3
    · cases h
      exact matchKindAt_pos h2
  · cases h
    exact matchKindAt_pos h1

theorem scanNext_bounds {l : List Char} {g : Nat} {k : TKind} {n : Nat}
    (h : scanNext l = some (g, k, n)) : 1 ≤ n ∧ g < l.length := by
  induction l generalizing g with
  | nil =>
      rw [scanNext] at h
      rcases hm : matchTokenAt ([] : List Char) with _ | ⟨k', n'⟩ <;>
        rw [hm] at h
      · simp at h
      · cases h
        have := matchTokenAt_pos hm
        simp at this
        omega
  | cons c rest ih =>
      rw [scanNext] at h
      rcases hm : matchTokenAt (c :: rest) with _ | ⟨k', n'⟩ <;> rw [hm] at h
      · simp only [Option.map_eq_some'] at h
        obtain ⟨⟨g', k'', n''⟩, hs, he⟩ := h
        cases he
        obtain ⟨hn, hg⟩ := ih hs
        refine ⟨hn, ?_⟩
        simp only [List.length_cons]
        omega
      · cases h
        have := matchTokenAt_pos hm
        refine ⟨this.1, ?_⟩
        simp only [List.length_cons]
        omega


theorem strMk_toList (s : String) : String.mk s.toList = s := by
  cases s
  rfl

theorem toList_injective {a b : String} (h : a.toList = b.toList) : a = b := by
  cases a
  cases b
  simp only [String.toList] at h
  rw [h]

theorem ctxSet_ctxSet (c : Context) (k : String) (a b : Value) :
    ctxSet (ctxSet c k a) k b = ctxSet c k b := by
  induction c with
  | nil => simp [ctxSet]
  | cons p rest ih =>
      obtain ⟨k', v'⟩ := p
      by_cases hk : k' = k
      · simp [ctxSet, hk]
      · simp [ctxSet, hk, ih]

theorem ctxGet_ctxSet_ne (c : Context) (k k' : String) (v : Value)
    (h : k' ≠ k) : ctxGet (ctxSet c k v) k' = ctxGet c k' := by
  induction c with
  | nil =>
      simp only [ctxSet, ctxGet]
      rw [if_neg (Ne.symm h)]
  | cons p rest ih =>
      obtain ⟨k0, v0⟩ := p
      by_cases hk : k0 = k
      · subst hk
        simp only [ctxSet, if_pos rfl, ctxGet]
        rw [if_neg (Ne.symm h), if_neg (Ne.symm h)]
      · simp only [ctxSet, if_neg hk, ctxGet]
        by_cases hk' : k0 = k'
        · rw [if_pos hk', if_pos hk']
        · rw [if_neg hk', if_neg hk', ih]

theorem ctxGet_ctxSet_self (c : Context) (k : String) (v : Value) :
    ctxGet (ctxSet c k v) k = some v := by
  induction c with
  | nil => simp [ctxSet, ctxGet]
  | cons p rest ih =>
      obtain ⟨k0, v0⟩ := p
      by_cases hk : k0 = k
      · simp [ctxSet, ctxGet, hk]
      · simp [ctxSet, ctxGet, hk, ih]

/-! ### Fuel irrelevance for the evaluator -/

theorem size_le_sizeList_of_mem {n : PNode} {l : List PNode} (h : n ∈ l) :
    PNode.size n ≤ PNode.sizeList l := by
  induction l with
  | nil => cases h
  | cons a rest ih =>
      rw [PNode.sizeList]
      rcases List.mem_cons.mp h with h | h
      · subst h
        omega
      · have := ih h
        omega

theorem size_pos (n : PNode) : 1 ≤ PNode.size n := by
  cases n
  rw [PNode.size]
  omega

theorem size_children_lt {c : PCls} {t : Option Token} {d : Bool}
    {ch : List PNode} {e : Option PNode} {n : PNode} (h : n ∈ ch) :
    PNode.size n < PNode.size (.mk c t d ch e) := by
  rw [PNode.size]
  have := size_le_sizeList_of_mem h
  omega

theorem size_elsenode_lt {c : PCls} {t : Option Token} {d : Bool}
    {ch : List PNode} {e : PNode} :
    PNode.size e < PNode.size (.mk c t d ch (some e)) := by
  rw [PNode.size]
  rw [PNode.sizeOpt]
  omega

theorem emitListWith_congr {f g : PNode → Context → Except Err (List String)}
    {ch : List PNode} (h : ∀ n ∈ ch, ∀ ctx, f n ctx = g n ctx) (ctx : Context) :
    emitListWith f ch ctx = emitListWith g ch ctx := by
  induction ch with
  | nil => rfl
  | cons n rest ih =>
      rw [emitListWith, emitListWith, h n (by simp) ctx]
      rw [ih (fun n' hn' => h n' (by simp [hn']))]

theorem loopIterWith_congr {f g : PNode → Context → Except Err (List String)}
    {ch : List PNode} (h : ∀ n ∈ ch, ∀ ctx, f n ctx = g n ctx)
    (ctxc : Context) (items : List Value) :
    loopIterWith f ch ctxc items = loopIterWith g ch ctxc items := by
  induction items generalizing ctxc with
  | nil => rfl
  | cons v rest ih =>
      rw [loopIterWith, loopIterWith, emitListWith_congr h, ih]

theorem except_bind_congr {α β : Type} {x : Except Err α}
    {f g : α → Except Err β} (h : ∀ a, f a = g a) :
    (x >>= f) = (x >>= g) := by
  cases x with
  | error e => rfl
  | ok a => exact h a

theorem emitF_congr :
    ∀ (f1 f2 : Nat) (n : PNode) (ctx : Context),
      PNode.size n ≤ f1 → PNode.size n ≤ f2 →
      emitF f1 n ctx = emitF f2 n ctx := by
  intro f1
  induction f1 with
  | zero =>
      intro f2 n ctx h1 _
      have := size_pos n
      omega
  | succ fz ih =>
      intro f2 n ctx h1 h2
      have hp := size_pos n
      obtain ⟨gz, rfl⟩ : ∃ gz, f2 = gz + 1 := ⟨f2 - 1, by omega⟩
      obtain ⟨c, t, d, ch, e⟩ := n
      have hch : ∀ n' ∈ ch, ∀ ctx', emitF fz n' ctx' = emitF gz n' ctx' := by
        intro n' hn' ctx'
        have hlt := size_children_lt (c := c) (t := t) (d := d) (e := e) hn'
        exact ih gz n' ctx' (by omega) (by omega)
      cases c with
      | literal => rfl
      | print => rfl
      | conditional => rfl
      | ifCls =>
          refine except_bind_congr (x := evaluateExpression t ctx) ?_
          intro v
          cases htv : truthy v
          · simp only [htv, Bool.false_eq_true, if_false]
            cases e with
            | none => rfl
            | some en =>
                have := @size_elsenode_lt .ifCls t d ch en
                exact ih gz en ctx (by omega) (by omega)
          · simp only [htv, if_true]
            exact emitListWith_congr hch ctx
      | elseCls => exact emitListWith_congr hch ctx
      | loop =>
          refine except_bind_congr (x := evaluateExpression t ctx) ?_
          intro v
          cases v with
          | dict m => exact loopIterWith_congr hch ctx (dictItems m)
          | none => rfl
          | bool b => rfl
          | int n' => rfl
          | str s => exact loopIterWith_congr hch ctx _
          | list xs => exact loopIterWith_congr hch ctx xs
          | attrObj ty nm => rfl
      | root => exact emitListWith_congr hch ctx

theorem emitF_eq_emit {f : Nat} {n : PNode} (ctx : Context)
    (h : PNode.size n ≤ f) : emitF f n ctx = PNode.emit n ctx :=
  emitF_congr f (PNode.size n) n ctx h (le_refl _)

theorem size_children_le_pred {c : PCls} {t : Option Token} {d : Bool}
    {ch : List PNode} {e : Option PNode} {n : PNode} (h : n ∈ ch) :
    PNode.size n ≤ PNode.sizeList ch + PNode.sizeOpt e :=
  le_trans (size_le_sizeList_of_mem h) (by omega)

/-- One-step unfolding of `RootNode.emit` (the inherited
`Node.emit`). -/
theorem emit_root (tok : Option Token) (d : Bool) (ch : List PNode)
    (e : Option PNode) (ctx : Context) :
    PNode.emit (.mk .root tok d ch e) ctx =
      emitListWith PNode.emit ch ctx :=
  emitListWith_congr
    (fun n' hn' ctx' =>
      emitF_eq_emit ctx'
        (size_children_le_pred (c := .root) (t := tok) (d := d) (e := e)
          hn')) ctx

/-- One-step unfolding of `LoopNode.emit` with full recursion restored
to `PNode.emit`. -/
theorem emit_loop (tok : Option Token) (d : Bool) (ch : List PNode)
    (e : Option PNode) (ctx : Context) :
    PNode.emit (.mk .loop tok d ch e) ctx =
      evaluateExpression tok ctx >>= fun resolved =>
        match resolved with
        | .dict m => loopIterWith PNode.emit ch ctx (dictItems m)
        | other => pyIter other >>= fun items =>
            loopIterWith PNode.emit ch ctx items := by
  refine except_bind_congr ?_
  intro v
  have hcongr : ∀ n' ∈ ch, ∀ ctx',
      emitF (PNode.sizeList ch + PNode.sizeOpt e) n' ctx' = PNode.emit n' ctx' :=
    fun n' hn' ctx' => emitF_eq_emit ctx'
      (size_children_le_pred (c := .loop) (t := tok) (d := d) (e := e) hn')
  cases v with
  | dict m => exact loopIterWith_congr hcongr ctx (dictItems m)
  | none => rfl
  | bool b => rfl
  | int n' => rfl
  | str s => exact loopIterWith_congr hcongr ctx _
  | list xs => exact loopIterWith_congr hcongr ctx xs
  | attrObj ty nm => rfl

/-- The single threaded context copy of `LoopNode.emit` behaves like a
fresh copy per iteration: only `item` is ever assigned, so the
iteration contexts coincide. -/
theorem loopIterWith_eq_spec (ch : List PNode) :
    ∀ (items : List Value) (ctx1 ctx2 : Context),
      (∀ w, ctxSet ctx1 "item" w = ctxSet ctx2 "item" w) →
      loopIterWith PNode.emit ch ctx1 items = specLoopEmit ch ctx2 items := by
  intro items
  induction items with
  | nil => intro _ _ _; rfl
  | cons v rest ih =>
      intro ctx1 ctx2 hset
      rw [loopIterWith, specLoopEmit]
      rw [hset v]
      have hnext : ∀ w, ctxSet (ctxSet ctx2 "item" v) "item" w = ctxSet ctx2 "item" w :=
        fun w => ctxSet_ctxSet ctx2 "item" v w
      rw [ih (ctxSet ctx2 "item" v) ctx2 hnext]

theorem loopIterCtxs_eq_map :
    ∀ (items : List Value) (ctx1 ctx2 : Context),
      (∀ w, ctxSet ctx1 "item" w = ctxSet ctx2 "item" w) →
      loopIterCtxs ctx1 items = items.map fun v => ctxSet ctx2 "item" v := by
  intro items
  induction items with
  | nil => intro _ _ _; rfl
  | cons v rest ih =>
      intro ctx1 ctx2 hset
      rw [loopIterCtxs, List.map]
      rw [hset v]
      have hnext : ∀ w, ctxSet (ctxSet ctx2 "item" v) "item" w = ctxSet ctx2 "item" w :=
        fun w => ctxSet_ctxSet ctx2 "item" v w
      rw [ih (ctxSet ctx2 "item" v) ctx2 hnext]

/-! ## Claim C3: loop context isolation -/

/-- C3 (amended).  `LoopNode.emit` makes a *single* shallow copy of
the incoming context before iterating and re-assigns its `item` key
on each iteration; because `item` is the only key ever written, each
iteration's body still observes exactly the incoming context with
`item` bound to the current element, the caller's context is never
written to, and nothing an iteration does leaks into its siblings:
the loop emits as if every iteration had its own fresh copy
(`specLoopEmit`), every iteration context agrees with the caller's
context outside `item`, and the operation trace contains exactly one
copy. -/
theorem loop_context_isolation
    (tok : Token) (d : Bool) (ch : List PNode) (e : Option PNode)
    (ctx : Context) (items : List Value)
    (hres : evaluateExpression (some tok) ctx = .ok (.list items)) :
    PNode.emit (.mk .loop (some tok) d ch e) ctx = specLoopEmit ch ctx items ∧
    loopIterCtxs ctx items = (items.map fun v => ctxSet ctx "item" v) ∧
    (∀ c' ∈ loopIterCtxs ctx items, ∀ k, k ≠ "item" →
      ctxGet c' k = ctxGet ctx k) ∧
    (∀ c' ∈ loopIterCtxs ctx items, ∃ v ∈ items, ctxGet c' "item" = some v) ∧
    (loopEmitOps items).count DictOp.copyCtx = 1 := by
  have hmap := loopIterCtxs_eq_map items ctx ctx (fun w => rfl)
  refine ⟨?_, hmap, ?_, ?_, ?_⟩
  · rw [emit_loop, hres]
    exact loopIterWith_eq_spec ch items ctx ctx (fun w => rfl)
  · intro c' hc' k hk
    rw [hmap] at hc'
    obtain ⟨v, _, rfl⟩ := List.mem_map.mp hc'
    exact ctxGet_ctxSet_ne ctx "item" k v hk
  · intro c' hc'
    rw [hmap] at hc'
    obtain ⟨v, hv, rfl⟩ := List.mem_map.mp hc'
    exact ⟨v, hv, ctxGet_ctxSet_self ctx "item" v⟩
  · rw [loopEmitOps, List.count_cons_self]
    have : (items.map fun _ => DictOp.setItemCtx "item").count DictOp.copyCtx
        = 0 := by
      rw [List.count_eq_zero]
      intro hmem
      obtain ⟨_, _, hbad⟩ := List.mem_map.mp hmem
      exact DictOp.noConfusion hbad
    omega

/-- Witness for C3 (amended): a one-element loop over a concrete
context. -/
theorem loop_context_isolation_witness :
    PNode.emit
        (.mk .loop (some (Token.startBlock "T" "loop" ["xs"])) false []
          Option.none)
        [("xs", Value.list [Value.int 1])] =
      specLoopEmit [] [("xs", Value.list [Value.int 1])] [Value.int 1] :=
  (loop_context_isolation (Token.startBlock "T" "loop" ["xs"]) false []
    Option.none [("xs", Value.list [Value.int 1])] [Value.int 1] rfl).1

/-- C3 counterexample: for a three-iteration loop the operation trace
of `LoopNode.emit` contains one `context.copy()`, not one per
iteration — the "fresh shallow copy each iteration" of the claim is
not what the code does (the copy statement sits before the loop). -/
theorem loop_copy_once_counterexample :
    (loopEmitOps [Value.int 1, Value.int 2, Value.int 3]).count
        DictOp.copyCtx = 1 ∧
    [Value.int 1, Value.int 2, Value.int 3].length = 3 ∧
    ¬ (loopEmitOps [Value.int 1, Value.int 2, Value.int 3]).count
        DictOp.copyCtx =
      [Value.int 1, Value.int 2, Value.int 3].length := by
  refine ⟨?_, rfl, ?_⟩ <;> decide

/-! ## Claim C10: loops over strings -/

/-- C10.  A loop whose guard resolves to a string takes the generic
iterable branch: Python string iteration yields the characters as
one-character strings, and the body is emitted once per character in
order with `item` bound to that character (each iteration context is
the incoming context plus the `item` binding). -/
theorem loop_string_iterates_characters
    (tok : Token) (d : Bool) (ch : List PNode) (e : Option PNode)
    (ctx : Context) (s : String)
    (hres : evaluateExpression (some tok) ctx = .ok (.str s)) :
    pyIter (.str s) = .ok (s.toList.map fun c => .str (String.mk [c])) ∧
    PNode.emit (.mk .loop (some tok) d ch e) ctx =
      specLoopEmit ch ctx (s.toList.map fun c => .str (String.mk [c])) ∧
    loopIterCtxs ctx (s.toList.map fun c => .str (String.mk [c])) =
      s.toList.map fun c => ctxSet ctx "item" (.str (String.mk [c])) := by
  refine ⟨rfl, ?_, ?_⟩
  · rw [emit_loop, hres]
    exact loopIterWith_eq_spec ch _ ctx ctx (fun w => rfl)
  · rw [loopIterCtxs_eq_map _ ctx ctx (fun w => rfl), List.map_map]
    rfl

/-- Witness for C10: a loop over the two-character string `"ab"`
emitting `item` once per character. -/
theorem loop_string_iterates_characters_witness :
    PNode.emit
        (.mk .loop (some (Token.startBlock "T" "loop" ["s"]))
          false [.mk .print (some (Token.print "P" ["item"])) true []
            Option.none]
          Option.none)
        [("s", Value.str "ab")] =
      specLoopEmit
        [.mk .print (some (Token.print "P" ["item"])) true [] Option.none]
        [("s", Value.str "ab")]
        ("ab".toList.map fun c => .str (String.mk [c])) ∧
    PNode.emit
        (.mk .loop (some (Token.startBlock "T" "loop" ["s"]))
          false [.mk .print (some (Token.print "P" ["item"])) true []
            Option.none]
          Option.none)
        [("s", Value.str "ab")] = .ok ["a", "b"] :=
  ⟨(loop_string_iterates_characters (Token.startBlock "T" "loop" ["s"])
      false _ Option.none [("s", Value.str "ab")] "ab" rfl).2.1, rfl⟩

/-! ## Claim C6: literal-key preference in variable resolution -/

/-- C1 (code bug).  The compile-then-render pipeline
(`parse(tokenize(text)).process(context)`, the documented behaviour
and what the test suite exercises) renders
`"Hello {{ name }}"` with `name = "World"` to `"Hello World"`; but
the actual `render` entry point raises `TypeError` on every call,
because `Env.template` invokes `template.Template(self, text)` while
`Template.__init__` accepts only `(self, text)`. -/
theorem render_pipeline_ok_but_entry_raises :
    renderPipeline "Hello \x7b\x7b name \x7d\x7d"
        [("name", Value.str "World")] = .ok "Hello World" ∧
    render "Hello \x7b\x7b name \x7d\x7d" [("name", Value.str "World")] =
      .error .typeError ∧
    envTemplateArgCount ≠ templateInitParamCount :=
  ⟨rfl, rfl, by decide⟩

/-! ## Claim C2: totality of the tokenizer -/

/-- C2 (code bug).  `tokenize` is *not* total: a print tag whose
expression contains an unbalanced quote reaches
`shlex.split` inside `make_expression`, which raises
`ValueError("No closing quotation")` — contradicting the docstring
"It does not raise exceptions."  The failing input is
`{{ " }}`. -/
theorem tokenize_raises_on_unbalanced_quote :
    tokenize "\x7b\x7b \" \x7d\x7d" = .error .noClosingQuotation ∧
    makeExpression (some "\" ") = .error .noClosingQuotation :=
  ⟨rfl, rfl⟩

/-! ## Claim C5: token round-trip -/

theorem buildToken_raw {k : TKind} {raw : List Char} {t : Token}
    (h : buildToken k raw = .ok t) : t.raw = String.mk raw := by
  cases k <;> rw [buildToken] at h
  case print =>
    cases hm : matchFirst printRE raw <;> rw [hm] at h
    · cases h
    · rename_i pr
      cases hme : makeExpression ((capGet pr.2 1).map String.mk) <;>
        simp only [hme, bind, Except.bind, pure, Except.pure] at h
      · cases h
      · cases h
        rfl
  case startBlock =>
    cases hm : matchFirst startRE raw <;> rw [hm] at h
    · cases h
    · rename_i pr
      cases hme : makeExpression ((capGet pr.2 2).map String.mk) <;>
        simp only [hme, bind, Except.bind, pure, Except.pure] at h
      · cases h
      · cases h
        rfl
  case endBlock =>
    cases hm : matchFirst endRE raw <;> rw [hm] at h
    · cases h
    · cases h
      rfl

theorem rawPieces_cons (t : Token) (ts : List Token) :
    rawPieces (t :: ts) = t.raw.toList :: rawPieces ts := rfl

theorem rawPieces_append (a b : List Token) :
    rawPieces (a ++ b) = rawPieces a ++ rawPieces b := by
  simp [rawPieces]

theorem concatRaws_toList (ts : List Token) :
    (concatRaws ts).toList = (rawPieces ts).flatten := by
  induction ts with
  | nil => rfl
  | cons t rest ih =>
      rw [concatRaws, rawPieces_cons, List.flatten_cons, ← ih]
      simp [String.toList, String.data_append]

theorem tokenizeF_concat :
    ∀ (fuel : Nat) (l : List Char) (ts : List Token),
      tokenizeF fuel l = .ok ts → (rawPieces ts).flatten = l := by
  intro fuel
  induction fuel with
  | zero => intro l ts h; cases h
  | succ fz ih =>
      intro l ts h
      rw [tokenizeF] at h
      cases hscan : scanNext l <;> rw [hscan] at h
      · by_cases hl : l.isEmpty
        · simp only [hl, if_true] at h
          cases h
          simp [rawPieces, List.isEmpty_iff.mp hl]
        · simp only [hl, if_false] at h
          cases h
          simp [rawPieces, literalToken, Token.raw, String.toList]
      · rename_i gkn
        obtain ⟨g, k, n⟩ := gkn
        simp only at h
        cases hbt : buildToken k ((l.drop g).take n) with
        | error e' =>
            rw [hbt] at h
            cases h
        | ok tok =>
        rw [hbt] at h
        simp only [bind, Except.bind] at h
        cases hrec : tokenizeF fz ((l.drop g).drop n) with
        | error e' =>
            rw [hrec] at h
            cases h
        | ok toks =>
        rw [hrec] at h
        simp only [pure, Except.pure] at h
        cases h
        have hraw : tok.raw.toList = (l.drop g).take n := by
          rw [buildToken_raw hbt]
          rfl
        have hrest := ih _ _ hrec
        by_cases hg : g = 0
        · subst hg
          have hif : (if (0 : Nat) = 0 then ([] : List Token)
              else [literalToken (l.take 0)]) = [] := by simp
          rw [hif, List.nil_append, rawPieces_cons, List.flatten_cons,
            hraw, hrest, List.drop_zero, List.take_append_drop]
        · rw [if_neg hg, List.singleton_append, rawPieces_cons,
            rawPieces_cons, List.flatten_cons, List.flatten_cons, hraw, hrest]
          have hlit : (literalToken (l.take g)).raw.toList = l.take g := rfl
          rw [hlit, List.take_append_drop, List.take_append_drop]

theorem flatten_get_piece {α : Type} :
    ∀ (ls : List (List α)) (i : Nat) (hi : i < ls.length),
      ls[i] =
        ((ls.flatten).drop (((ls.take i).map List.length).sum)).take
          ls[i].length := by
  intro ls
  induction ls with
  | nil => intro i hi; cases hi
  | cons a rest ih =>
      intro i hi
      cases i with
      | zero =>
          simp only [List.getElem_cons_zero, List.take_zero, List.map_nil,
            List.sum_nil, List.drop_zero, List.flatten_cons]
          rw [List.take_left]
      | succ i' =>
          simp only [List.getElem_cons_succ, List.flatten_cons,
            List.take_succ_cons, List.map_cons, List.sum_cons]
          have hdrop :
              (a ++ rest.flatten).drop
                  (a.length + ((rest.take i').map List.length).sum) =
                rest.flatten.drop (((rest.take i').map List.length).sum) := by
            rw [← List.drop_drop, List.drop_left]
          rw [hdrop]
          exact ih i' (Nat.lt_of_succ_lt_succ hi)

/-- C5 (amended).  Whenever `tokenize` completes without raising, the
tokens cover the input in source order without gaps or overlaps:
concatenating their raw source substrings reconstructs the text
exactly, the `i`-th raw substring is precisely the slice of the text
starting at the sum of the previous raw lengths, and consecutive
spans are adjacent. -/
theorem tokenize_round_trip (text : String) (ts : List Token)
    (h : tokenize text = .ok ts) :
    concatRaws ts = text ∧
    (∀ (i : Nat) (hi : i < ts.length),
      ts[i].raw.toList =
        (text.toList.drop (startOf ts i)).take ts[i].raw.toList.length) ∧
    (∀ (i : Nat) (hi : i < ts.length),
      startOf ts (i + 1) = startOf ts i + ts[i].raw.toList.length) := by
  have hflat : (rawPieces ts).flatten = text.toList :=
    tokenizeF_concat _ _ _ h
  have hlen : ∀ i, i < ts.length → i < (rawPieces ts).length := by
    intro i hi
    simpa [rawPieces] using hi
  refine ⟨?_, ?_, ?_⟩
  · apply toList_injective
    rw [concatRaws_toList, hflat]
  · intro i hi
    have h2 := flatten_get_piece (rawPieces ts) i (hlen i hi)
    rw [hflat] at h2
    rw [startOf]
    simp only [rawPieces, List.getElem_map] at h2 ⊢
    exact h2
  · intro i hi
    rw [startOf, startOf, List.map_take, List.map_take,
      List.sum_take_succ _ i (by simpa [rawPieces] using hi)]
    congr 1
    simp [rawPieces]

/-- Witness for C5 (amended): a text with a literal gap and a print
tag. -/
theorem tokenize_round_trip_witness :
    concatRaws [Token.literal "a" "a",
      Token.print "\x7b\x7b x \x7d\x7d" ["x"]] = "a\x7b\x7b x \x7d\x7d" :=
  (tokenize_round_trip "a\x7b\x7b x \x7d\x7d"
    [Token.literal "a" "a", Token.print "\x7b\x7b x \x7d\x7d" ["x"]] rfl).1

/-- C5 counterexample: the claim quantifies over *every* input text,
but `tokenize` raises on `x{{ ' }}y` (unbalanced quote inside a print
expression, via `shlex`), so no token sequence at all is produced for
this text, let alone one whose raw spans reconstruct it. -/
theorem tokenize_round_trip_counterexample :
    tokenize "x\x7b\x7b ' \x7d\x7dy" = .error .noClosingQuotation ∧
    ¬ ∃ ts : List Token, tokenize "x\x7b\x7b ' \x7d\x7dy" = .ok ts := by
  refine ⟨rfl, ?_⟩
  rintro ⟨ts, hts⟩
  rw [show tokenize "x\x7b\x7b ' \x7d\x7dy" =
    Except.error Err.noClosingQuotation from rfl] at hts
  cases hts

/-! ## Claim C4: tag-free text round-trips through render -/

theorem textUnescape_id : ∀ (l : List Char), '\\' ∉ l → textUnescape l = l := by
  intro l
  induction l with
  | nil => intro _; rfl
  | cons c rest ih =>
      intro h
      have hc : ¬ c = '\\' := by
        intro hc
        subst hc
        exact h (List.mem_cons_self _ _)
      rw [textUnescape.eq_def]
      simp only [if_neg hc]
      rw [ih (fun hm => h (List.mem_cons_of_mem c hm))]

theorem matchTokenAt_none_of_scanNext_none :
    ∀ (l : List Char), scanNext l = Option.none →
      ∀ i, matchTokenAt (l.drop i) = Option.none := by
  intro l
  induction l with
  | nil =>
      intro _ i
      rw [List.drop_nil]
      rfl
  | cons c rest ih =>
      intro h i
      rw [scanNext] at h
      cases hm : matchTokenAt (c :: rest) <;> rw [hm] at h
      · have hrest : scanNext rest = Option.none := by
          cases hs : scanNext rest
          · rfl
          · rw [hs] at h
            cases h
        cases i with
        | zero => exact hm
        | succ i' =>
            rw [List.drop_succ_cons]
            exact ih hrest i'
      · cases h

/-- C4 (amended).  For text in which no position matches any tag
pattern and which contains no backslash, the compile-then-render
pipeline returns the text unchanged, for every context.  (Two
corrections to the claim: the `render` entry point itself always
raises `TypeError` — see the C1 constructor-arity bug — and a
backslash in tag-free text is collapsed by the literal unescaping,
see the counterexample.) -/
theorem render_literal_passthrough (text : String) (ctx : Context)
    (hnotag : scanNext text.toList = Option.none)
    (hnobs : '\\' ∉ text.toList) :
    renderPipeline text ctx = .ok text ∧
    ∀ i, matchTokenAt (text.toList.drop i) = Option.none := by
  refine ⟨?_, matchTokenAt_none_of_scanNext_none _ hnotag⟩
  have htok : tokenize text = .ok (if text.toList.isEmpty then []
      else [literalToken text.toList]) := by
    rw [tokenize, tokenizeL, tokenizeF, hnotag]
  by_cases hl : text.toList.isEmpty
  · have htext : text = "" := by
      apply toList_injective
      rw [List.isEmpty_iff.mp hl]
      rfl
    subst htext
    rfl
  · rw [if_neg hl] at htok
    have hstep : renderPipeline text ctx =
        .ok (String.mk (textUnescape text.toList)) := by
      simp only [renderPipeline, templateCompile, templateRender, bind,
        Except.bind, htok]
      rfl
    rw [hstep, textUnescape_id _ hnobs, strMk_toList]

/-- Witness for C4 (amended): a tag-like but unmatched text is
returned unchanged by the pipeline. -/
theorem render_literal_passthrough_witness :
    renderPipeline "hello \x7b" [("x", Value.int 1)] = .ok "hello \x7b" :=
  (render_literal_passthrough "hello \x7b" [("x", Value.int 1)] rfl
    (by decide)).1

/-- C4 counterexample: `"a\b"` contains no tag match, yet the
pipeline renders it as `"ab"` (the literal unescaping collapses the
backslash pair), and the `render` entry point raises `TypeError`
outright — so `render(text, ctx) == text` fails for this tag-free
text. -/
theorem render_literal_passthrough_counterexample :
    scanNext ("a\\b".toList) = Option.none ∧
    renderPipeline "a\\b" [] = .ok "ab" ∧
    render "a\\b" [] = .error .typeError ∧
    ("ab" : String) ≠ "a\\b" :=
  ⟨rfl, rfl, rfl, by decide⟩

/-! ## Claim C8: conditional chains emit the first truthy branch -/

theorem charListLe_total : ∀ a b : List Char,
    charListLe a b = true ∨ charListLe b a = true := by
  intro a
  induction a with
  | nil => intro b; left; rfl
  | cons c cs ih =>
      intro b
      cases b with
      | nil => right; rfl
      | cons d ds =>
          rw [charListLe, charListLe]
          rcases lt_trichotomy c d with h | h | h
          · left
            rw [if_pos h]
          · subst h
            rcases ih ds with h2 | h2
            · left
              rw [if_neg (lt_irrefl c), if_neg (lt_irrefl c)]
              exact h2
            · right
              rw [if_neg (lt_irrefl c), if_neg (lt_irrefl c)]
              exact h2
          · right
            rw [if_pos h]

theorem charListLe_trans : ∀ a b c : List Char,
    charListLe a b = true → charListLe b c = true →
    charListLe a c = true := by
  intro a
  induction a with
  | nil => intro b c _ _; rfl
  | cons x xs ih =>
      intro b c h1 h2
      cases b with
      | nil => rw [charListLe] at h1; cases h1
      | cons y ys =>
          cases c with
          | nil => rw [charListLe] at h2; cases h2
          | cons z zs =>
              rw [charListLe] at h1 h2 ⊢
              rcases lt_trichotomy x y with hxy | hxy | hxy
              · rcases lt_trichotomy y z with hyz | hyz | hyz
                · rw [if_pos (lt_trans hxy hyz)]
                · subst hyz
                  rw [if_pos hxy]
                · rw [if_pos hyz, if_neg (lt_asymm hyz)] at h2
                  cases h2
              · subst hxy
                rcases lt_trichotomy x z with hxz | hxz | hxz
                · rw [if_pos hxz]
                · subst hxz
                  rw [if_neg (lt_irrefl x), if_neg (lt_irrefl x)] at h1 h2 ⊢
                  exact ih ys zs h1 h2
                · rw [if_pos hxz, if_neg (lt_asymm hxz)] at h2
                  cases h2
              · rw [if_pos hxy, if_neg (lt_asymm hxy)] at h1
                cases h1

theorem charListLe_antisymm : ∀ a b : List Char,
    charListLe a b = true → charListLe b a = true → a = b := by
  intro a
  induction a with
  | nil =>
      intro b _ h2
      cases b with
      | nil => rfl
      | cons d ds => rw [charListLe] at h2; cases h2
  | cons c cs ih =>
      intro b h1 h2
      cases b with
      | nil => rw [charListLe] at h1; cases h1
      | cons d ds =>
          rw [charListLe] at h1 h2
          rcases lt_trichotomy c d with h | h | h
          · rw [if_pos h, if_neg (lt_asymm h)] at h2
            cases h2
          · subst h
            rw [if_neg (lt_irrefl c), if_neg (lt_irrefl c)] at h1 h2
            rw [ih ds h1 h2]
          · rw [if_pos h, if_neg (lt_asymm h)] at h1
            cases h1

instance : IsTrans (String × Value) keyLe :=
  ⟨fun _ _ _ h1 h2 => charListLe_trans _ _ _ h1 h2⟩

instance : IsTotal (String × Value) keyLe :=
  ⟨fun a b => charListLe_total a.1.toList b.1.toList⟩

theorem sortedItems_sorted (m : List (String × Value)) :
    List.Sorted keyLe (sortedItems m) :=
  List.sorted_insertionSort keyLe m

theorem sortedItems_perm (m : List (String × Value)) :
    (sortedItems m).Perm m :=
  List.perm_insertionSort keyLe m

theorem keyLe_antisymm_of_ne {a b : String × Value}
    (h1 : keyLe a b) (h2 : keyLe b a) : a.1 = b.1 :=
  toList_injective (charListLe_antisymm _ _ h1 h2)

/-- Two insertion-ordered dict representations with the same entries
(and duplicate-free keys) sort to the same entry list: the iteration
order is independent of the mapping's own order. -/
theorem sortedItems_eq_of_perm {m m' : List (String × Value)}
    (hperm : m.Perm m') (hnd : (m.map Prod.fst).Nodup) :
    sortedItems m = sortedItems m' := by
  haveI : IsAntisymm (String × Value)
      (fun a b => keyLe a b ∧ a.1 ≠ b.1) :=
    ⟨fun a b h1 h2 => absurd (keyLe_antisymm_of_ne h1.1 h2.1) h1.2⟩
  have hsym : ∀ {x y : String × Value}, x.1 ≠ y.1 → y.1 ≠ x.1 :=
    fun h => h.symm
  have hpm : (m.map Prod.fst).Nodup ↔
      m.Pairwise (fun a b => a.1 ≠ b.1) := by
    rw [List.Nodup, List.pairwise_map]
  have hnd1 : (sortedItems m).Pairwise (fun a b => a.1 ≠ b.1) :=
    ((sortedItems_perm m).pairwise_iff hsym).mpr (hpm.mp hnd)
  have hndm' : (m'.map Prod.fst).Nodup := by
    rw [List.Nodup, List.pairwise_map]
    exact (hperm.pairwise_iff hsym).mp (hpm.mp hnd)
  have hnd2 : (sortedItems m').Pairwise (fun a b => a.1 ≠ b.1) :=
    ((sortedItems_perm m').pairwise_iff hsym).mpr
      (by rw [← List.pairwise_map (f := Prod.fst)]; exact hndm')
  have hp : (sortedItems m).Perm (sortedItems m') :=
    (sortedItems_perm m).trans (hperm.trans (sortedItems_perm m').symm)
  exact List.eq_of_perm_of_sorted hp
    ((sortedItems_sorted m).and hnd1) ((sortedItems_sorted m').and hnd2)

/-- C7.  A loop whose guard resolves to a mapping emits its body once
per entry in ascending key order, independent of the mapping's own
iteration (insertion) order, with `item` bound to
`\x7b"key": k, "value": v\x7d` on a copy of the context. -/
theorem loop_dict_ascending_keys
    (tok : Token) (d : Bool) (ch : List PNode) (e : Option PNode)
    (ctx : Context) (m m' : List (String × Value))
    (hres : evaluateExpression (some tok) ctx = .ok (.dict m))
    (hperm : m.Perm m') (hnd : (m.map Prod.fst).Nodup) :
    PNode.emit (.mk .loop (some tok) d ch e) ctx =
      specLoopEmit ch ctx (dictItems m) ∧
    List.Sorted keyLe (sortedItems m) ∧
    (sortedItems m).Perm m ∧
    dictItems m = dictItems m' ∧
    loopIterCtxs ctx (dictItems m) =
      (sortedItems m).map fun p =>
        ctxSet ctx "item" (.dict [("key", .str p.1), ("value", p.2)]) := by
  refine ⟨?_, sortedItems_sorted m, sortedItems_perm m, ?_, ?_⟩
  · rw [emit_loop, hres]
    exact loopIterWith_eq_spec ch (dictItems m) ctx ctx (fun w => rfl)
  · rw [dictItems, dictItems, sortedItems_eq_of_perm hperm hnd]
  · rw [loopIterCtxs_eq_map _ ctx ctx (fun w => rfl), dictItems,
      List.map_map]
    rfl

/-- Witness for C7: a two-entry dict stored in descending key order is
iterated ascending, emitting the values `1` then `2`. -/
theorem loop_dict_ascending_keys_witness :
    PNode.emit
        (.mk .loop (some (Token.startBlock "T" "loop" ["m"])) false
          [.mk .print (some (Token.print "P" ["item.value"])) true []
            Option.none]
          Option.none)
        [("m", Value.dict [("b", Value.int 2), ("a", Value.int 1)])] =
      specLoopEmit
        [.mk .print (some (Token.print "P" ["item.value"])) true []
          Option.none]
        [("m", Value.dict [("b", Value.int 2), ("a", Value.int 1)])]
        (dictItems [("b", Value.int 2), ("a", Value.int 1)]) ∧
    specLoopEmit
        [.mk .print (some (Token.print "P" ["item.value"])) true []
          Option.none]
        [("m", Value.dict [("b", Value.int 2), ("a", Value.int 1)])]
        (dictItems [("b", Value.int 2), ("a", Value.int 1)]) =
      .ok ["1", "2"] :=
  ⟨(loop_dict_ascending_keys (Token.startBlock "T" "loop" ["m"]) false
      [.mk .print (some (Token.print "P" ["item.value"])) true []
        Option.none]
      Option.none
      [("m", Value.dict [("b", Value.int 2), ("a", Value.int 1)])]
      [("b", Value.int 2), ("a", Value.int 1)]
      [("a", Value.int 1), ("b", Value.int 2)] rfl
      (List.Perm.swap _ _ _) (by decide)).1, rfl⟩

/-! ## Claim C9: an else-branch must be unique and last -/

theorem parseFold_append (a b : List Token) (st : List PNode) :
    parseFold (a ++ b) st = parseFold a st >>= parseFold b := by
  induction a generalizing st with
  | nil => rfl
  | cons t rest ih =>
      simp only [List.cons_append, parseFold]
      cases h : parseToken st t with
      | error e => rfl
      | ok st' => exact ih st'

theorem parse_error_of_fold {ts : List Token} {e : Err}
    (h : parseFold ts [] = .error e) : parse ts = .error e := by
  simp only [parse, h, bind, Except.bind]

theorem parseStartBlock_else_shape {st st' : List PNode} {t : Token}
    (h : parseStartBlockToken st t "else" = .ok st') :
    ∃ s, st' = mkElseNode t :: s := by
  rw [parseStartBlockToken, if_neg (by decide), if_neg (by decide),
    if_pos rfl] at h
  cases hr : rewindStackFor st (fun c => c = .ifCls) [] <;> rw [hr] at h
  · cases h
  · rename_i s
    simp only [bind, Except.bind, pure, Except.pure] at h
    cases h
    exact ⟨s, rfl⟩

theorem parseStartBlock_elif_err {st : List PNode} {t : Token} {e : Err}
    (h : rewindStackFor st (fun c => c = .ifCls) [] = .error e) :
    parseStartBlockToken st t "elif" = .error e := by
  rw [parseStartBlockToken, if_neg (by decide), if_pos rfl, h]
  rfl

theorem parseStartBlock_else_err {st : List PNode} {t : Token} {e : Err}
    (h : rewindStackFor st (fun c => c = .ifCls) [] = .error e) :
    parseStartBlockToken st t "else" = .error e := by
  rw [parseStartBlockToken, if_neg (by decide), if_neg (by decide),
    if_pos rfl, h]
  rfl

theorem parseFold_simple (b : List Token) :
    ∀ st : List PNode, (∀ t ∈ b, simpleTok t) →
      ∃ ns : List PNode,
        parseFold b st = .ok (ns ++ st) ∧ ∀ n ∈ ns, n.done = true := by
  induction b with
  | nil => intro st _; exact ⟨[], rfl, by simp⟩
  | cons t rest ih =>
      intro st hb
      have hbrest : ∀ t' ∈ rest, simpleTok t' :=
        fun t' ht' => hb t' (List.mem_cons_of_mem _ ht')
      rcases hb t (List.mem_cons_self _ _) with ⟨raw, text, rfl⟩ |
        ⟨raw, e, rfl⟩
      · obtain ⟨ns, hfold, hdone⟩ :=
          ih (mkLiteralNode (.literal raw text) :: st) hbrest
        refine ⟨ns ++ [mkLiteralNode (.literal raw text)], ?_, ?_⟩
        · have hstep : parseFold (Token.literal raw text :: rest) st =
              parseFold rest (mkLiteralNode (Token.literal raw text) :: st) :=
            rfl
          rw [hstep, hfold, List.append_assoc]
          rfl
        · intro n hn
          rcases List.mem_append.mp hn with hn | hn
          · exact hdone n hn
          · rcases List.mem_singleton.mp hn with rfl
            rfl
      · obtain ⟨ns, hfold, hdone⟩ :=
          ih (mkPrintNode (.print raw e) :: st) hbrest
        refine ⟨ns ++ [mkPrintNode (.print raw e)], ?_, ?_⟩
        · have hstep : parseFold (Token.print raw e :: rest) st =
              parseFold rest (mkPrintNode (Token.print raw e) :: st) := rfl
          rw [hstep, hfold, List.append_assoc]
          rfl
        · intro n hn
          rcases List.mem_append.mp hn with hn | hn
          · exact hdone n hn
          · rcases List.mem_singleton.mp hn with rfl
            rfl

theorem rewindPast_done :
    ∀ (ds : List PNode) (nd : PNode) (s acc : List PNode)
      (search : PCls → Bool),
      (∀ n ∈ ds, n.done = true) → nd.done = false →
      search nd.cls = false →
      rewindStackFor (ds ++ nd :: s) search acc =
        .error .unexpectedUnfinishedNode := by
  intro ds
  induction ds with
  | nil =>
      intro nd s acc search _ hnd hsearch
      rw [List.nil_append, rewindStackFor, hnd]
      simp only [Bool.false_eq_true, if_false, hsearch]
  | cons d ds' ih =>
      intro nd s acc search hds hnd hsearch
      rw [List.cons_append, rewindStackFor,
        hds d (List.mem_cons_self _ _)]
      simp only [if_true]
      exact ih nd s (d :: acc) search
        (fun n hn => hds n (List.mem_cons_of_mem _ hn)) hnd hsearch

/-- C9.  A start-block `else` (wherever it occurs, after any prefix)
leaves an incomplete `ElseNode` on top of the stack; any later `elif`
or `else` at the same block level (only completed terminal nodes in
between) rewinds into that `ElseNode`, which is not an `IfNode`, and
parsing fails — so a chain with a second else-branch, or with an
else-branch before an elif-branch, never parses. -/
theorem else_must_be_last
    (pre rest b2 : List Token) (elseRaw xRaw : String)
    (elseExpr xExpr : List String)
    (hb2 : ∀ t ∈ b2, simpleTok t) (xFn : String)
    (hx : xFn = "elif" ∨ xFn = "else") :
    ∃ e, parse (pre ++ Token.startBlock elseRaw "else" elseExpr ::
        (b2 ++ Token.startBlock xRaw xFn xExpr :: rest)) = .error e := by
  cases hpre : parseFold pre [] with
  | error e =>
      refine ⟨e, parse_error_of_fold ?_⟩
      rw [parseFold_append, hpre]
      rfl
  | ok st =>
      have hto : parseToken st (Token.startBlock elseRaw "else" elseExpr) =
          parseStartBlockToken st (Token.startBlock elseRaw "else" elseExpr)
            "else" := rfl
      cases helse : parseStartBlockToken st
          (Token.startBlock elseRaw "else" elseExpr) "else" with
      | error e =>
          refine ⟨e, parse_error_of_fold ?_⟩
          rw [parseFold_append, hpre]
          show parseFold (Token.startBlock elseRaw "else" elseExpr ::
            (b2 ++ Token.startBlock xRaw xFn xExpr :: rest)) st = .error e
          rw [parseFold, hto, helse]
          rfl
      | ok st1 =>
          obtain ⟨st', rfl⟩ := parseStartBlock_else_shape helse
          obtain ⟨ns, hfold, hdone⟩ := parseFold_simple b2
            (mkElseNode (Token.startBlock elseRaw "else" elseExpr) :: st')
            hb2
          have hrew : rewindStackFor
              (ns ++ mkElseNode (Token.startBlock elseRaw "else" elseExpr)
                :: st') (fun c => c = .ifCls) [] =
              .error .unexpectedUnfinishedNode :=
            rewindPast_done ns _ st' [] _ hdone rfl rfl
          have hxstep : parseToken
              (ns ++ mkElseNode (Token.startBlock elseRaw "else" elseExpr)
                :: st')
              (Token.startBlock xRaw xFn xExpr) =
              .error .unexpectedUnfinishedNode := by
            rcases hx with rfl | rfl
            · exact parseStartBlock_elif_err hrew
            · exact parseStartBlock_else_err hrew
          refine ⟨.unexpectedUnfinishedNode, parse_error_of_fold ?_⟩
          rw [parseFold_append, hpre]
          show parseFold (Token.startBlock elseRaw "else" elseExpr ::
            (b2 ++ Token.startBlock xRaw xFn xExpr :: rest)) st = _
          rw [parseFold, hto, helse]
          show parseFold (b2 ++ Token.startBlock xRaw xFn xExpr :: rest)
            (mkElseNode (Token.startBlock elseRaw "else" elseExpr) :: st') =
            _
          rw [parseFold_append, hfold]
          show parseFold (Token.startBlock xRaw xFn xExpr :: rest)
            (ns ++ mkElseNode (Token.startBlock elseRaw "else" elseExpr)
              :: st') = _
          rw [parseFold, hxstep]
          rfl

/-- Witness for C9: the double-else chain
`{% if qq %}1{% else %}3{% else %}4{% /if %}` fails to parse. -/
theorem else_must_be_last_witness :
    ∃ e, parse
        [Token.startBlock "\x7b% if qq %\x7d" "if" ["qq"],
          Token.literal "1" "1",
          Token.startBlock "\x7b%else%\x7d" "else" [""],
          Token.literal "3" "3",
          Token.startBlock "\x7b%else%\x7d" "else" [""],
          Token.literal "4" "4",
          Token.endBlock "\x7b%/if%\x7d" "if"] = .error e :=
  else_must_be_last
    [Token.startBlock "\x7b% if qq %\x7d" "if" ["qq"], Token.literal "1" "1"]
    [Token.literal "4" "4", Token.endBlock "\x7b%/if%\x7d" "if"]
    [Token.literal "3" "3"] "\x7b%else%\x7d" "\x7b%else%\x7d" [""] [""]
    (by intro t ht
        rcases List.mem_singleton.mp ht with rfl
        exact Or.inl ⟨"3", "3", rfl⟩)
    "else" (Or.inr rfl)
